import Mathlib

/-!
# Verification of the subagent slot-pool and dispatch protocol

Shallow embedding of the `subagent` repository (TypeScript sources under
`src/`).  Filesystem state is made explicit: a pool root's directory
entries and the set of existing file paths are inputs, and filesystem
mutations (file writes, lock-marker removals) are returned as explicit
effect logs.  JavaScript string primitives (`String.prototype.split`,
`Number.parseInt`, template-literal number rendering, `Array.prototype.sort`)
are modelled by executable Lean functions over `List Char` / `String`.

Modelled sources:
* `src/vscode/provision.ts` — `provisionSubagents`, `unlockSubagents`
* `src/vscode/agentDispatch.ts` — `findUnlockedSubagent`, `dispatchAgent`,
  `waitForResponseOutput`
* `src/utils/workspace.ts` — `transformWorkspacePaths`
-/

namespace Subagent

/-! ## JavaScript string primitives -/

/-- `String.prototype.split` with a single-character separator, on char lists.
`splitOnChar '-' "a--b"` gives `["a", "", "b"]`, as in JS. -/
def splitOnChar (sep : Char) : List Char → List (List Char)
  | [] => [[]]
  | c :: rest =>
    if c = sep then [] :: splitOnChar sep rest
    else
      match splitOnChar sep rest with
      | [] => [[c]]
      | g :: gs => (c :: g) :: gs

theorem splitOnChar_ne_nil (sep : Char) (l : List Char) : splitOnChar sep l ≠ [] := by
  cases l with
  | nil => simp [splitOnChar]
  | cons c rest =>
    simp only [splitOnChar]
    split
    · simp
    · split <;> simp

/-- A separator-free list splits into a single group. -/
theorem splitOnChar_of_not_mem {sep : Char} {l : List Char} (h : sep ∉ l) :
    splitOnChar sep l = [l] := by
  induction l with
  | nil => rfl
  | cons c rest ih =>
    have hc : c ≠ sep := fun hcs => h (hcs ▸ List.mem_cons_self c rest)
    have hrest : sep ∉ rest := fun hm => h (List.mem_cons_of_mem _ hm)
    simp only [splitOnChar, if_neg hc, ih hrest]

/-- Splitting `xs ++ sep :: ys` when `xs` is separator-free puts `xs` first. -/
theorem splitOnChar_append_sep {sep : Char} {xs : List Char} (ys : List Char)
    (h : sep ∉ xs) :
    splitOnChar sep (xs ++ sep :: ys) = xs :: splitOnChar sep ys := by
  induction xs with
  | nil => simp [splitOnChar]
  | cons c rest ih =>
    have hc : c ≠ sep := fun hcs => h (hcs ▸ List.mem_cons_self c rest)
    have hrest : sep ∉ rest := fun hm => h (List.mem_cons_of_mem _ hm)
    simp only [List.cons_append, splitOnChar, if_neg hc, List.append_eq, ih hrest]

/-- JS whitespace for the purposes of `Number.parseInt` leading-trim
(the common ASCII whitespace characters). -/
def isJsSpace (c : Char) : Bool :=
  c = ' ' || c = '\t' || c = '\n' || c = '\r'

/-- Numeric value of a decimal digit character. -/
def digitVal (c : Char) : Nat := c.toNat - 48

/-- Decimal value of a digit-character list, most significant first
(the accumulator loop JS engines use). -/
def parseDigits (l : List Char) : Nat :=
  l.foldl (fun a c => 10 * a + digitVal c) 0

theorem parseDigits_append_digit (xs : List Char) (c : Char) :
    parseDigits (xs ++ [c]) = 10 * parseDigits xs + digitVal c := by
  simp [parseDigits, List.foldl_append]

/-- Longest decimal-digit prefix as a number; `none` models `NaN` (no digits). -/
def parseDigitPrefix (l : List Char) : Option Nat :=
  let ds := l.takeWhile Char.isDigit
  if ds.isEmpty then none else some (parseDigits ds)

/-- `Number.parseInt(s, 10)`: trim leading whitespace, optional sign, then the
longest decimal-digit prefix; `none` models `NaN` (no digits). -/
def jsParseIntChars (s : List Char) : Option Int :=
  match s.dropWhile isJsSpace with
  | [] => none
  | c :: rest =>
    if c = '-' then (parseDigitPrefix rest).map (fun n => -(n : Int))
    else if c = '+' then (parseDigitPrefix rest).map (fun n => (n : Int))
    else (parseDigitPrefix (c :: rest)).map (fun n => (n : Int))

/-- Decimal digit characters, as the JS number-to-string conversion emits. -/
def digitChar (n : Nat) : Char :=
  match n with
  | 0 => '0' | 1 => '1' | 2 => '2' | 3 => '3' | 4 => '4'
  | 5 => '5' | 6 => '6' | 7 => '7' | 8 => '8' | _ => '9'

theorem digitVal_digitChar {n : Nat} (h : n < 10) : digitVal (digitChar n) = n := by
  interval_cases n <;> decide

theorem isDigit_digitChar {n : Nat} (h : n < 10) : (digitChar n).isDigit = true := by
  interval_cases n <;> decide

/-- Fuel-driven decimal rendering (structural, hence kernel-evaluable). -/
def natDecAux : Nat → Nat → List Char
  | 0, _ => []
  | fuel + 1, n =>
    if n < 10 then [digitChar n]
    else natDecAux fuel (n / 10) ++ [digitChar (n % 10)]

theorem natDecAux_fuel_irrel : ∀ f₁ f₂ n, n < f₁ → n < f₂ →
    natDecAux f₁ n = natDecAux f₂ n := by
  intro f₁
  induction f₁ with
  | zero => intro f₂ n h₁; omega
  | succ f₁ ih =>
    intro f₂ n h₁ h₂
    cases f₂ with
    | zero => omega
    | succ f₂ =>
      simp only [natDecAux]
      split
      · rfl
      · have hn : 10 ≤ n := by omega
        have hd : n / 10 < n := Nat.div_lt_self (by omega) (by omega)
        rw [ih f₂ (n / 10) (by omega) (by omega)]

/-- Decimal rendering of a natural number, as JS `${n}` renders integers. -/
def natDecChars (n : Nat) : List Char := natDecAux (n + 1) n

theorem natDecChars_ge_ten {n : Nat} (h : 10 ≤ n) :
    natDecChars n = natDecChars (n / 10) ++ [digitChar (n % 10)] := by
  have hd : n / 10 < n := Nat.div_lt_self (by omega) (by omega)
  have step : natDecAux (n + 1) n = natDecAux n (n / 10) ++ [digitChar (n % 10)] := by
    conv_lhs => rw [natDecAux]
    rw [if_neg (show ¬ n < 10 by omega)]
  calc natDecChars n = natDecAux n (n / 10) ++ [digitChar (n % 10)] := step
    _ = natDecChars (n / 10) ++ [digitChar (n % 10)] := by
        rw [natDecAux_fuel_irrel n (n / 10 + 1) (n / 10) (by omega) (by omega)]
        rfl

theorem natDecChars_lt_ten {n : Nat} (h : n < 10) : natDecChars n = [digitChar n] := by
  simp [natDecChars, natDecAux, h]

theorem parseDigits_natDecChars (n : Nat) : parseDigits (natDecChars n) = n := by
  induction n using Nat.strong_induction_on with
  | _ n ih =>
    by_cases h : n < 10
    · rw [natDecChars_lt_ten h]
      simpa [parseDigits] using digitVal_digitChar h
    · have h10 : 10 ≤ n := by omega
      rw [natDecChars_ge_ten h10, parseDigits_append_digit,
        ih (n / 10) (Nat.div_lt_self (by omega) (by omega)),
        digitVal_digitChar (Nat.mod_lt n (by omega))]
      omega

theorem natDecChars_ne_nil (n : Nat) : natDecChars n ≠ [] := by
  by_cases h : n < 10
  · rw [natDecChars_lt_ten h]; simp
  · rw [natDecChars_ge_ten (by omega)]; simp

theorem natDecChars_all_digit (n : Nat) : ∀ c ∈ natDecChars n, c.isDigit = true := by
  induction n using Nat.strong_induction_on with
  | _ n ih =>
    by_cases h : n < 10
    · rw [natDecChars_lt_ten h]
      intro c hc
      simp only [List.mem_singleton] at hc
      exact hc ▸ isDigit_digitChar h
    · rw [natDecChars_ge_ten (by omega)]
      intro c hc
      rcases List.mem_append.mp hc with hc | hc
      · exact ih (n / 10) (Nat.div_lt_self (by omega) (by omega)) c hc
      · simp only [List.mem_singleton] at hc
        exact hc ▸ isDigit_digitChar (Nat.mod_lt n (by omega))

theorem isDigit_not_space {c : Char} (h : c.isDigit = true) : isJsSpace c = false := by
  cases hsp : isJsSpace c
  · rfl
  · exfalso
    simp only [isJsSpace, Bool.or_eq_true, decide_eq_true_eq] at hsp
    rcases hsp with ((rfl | rfl) | rfl) | rfl <;> exact absurd h (by decide)

theorem isDigit_ne_dash {c : Char} (h : c.isDigit = true) : c ≠ '-' := by
  rintro rfl; exact absurd h (by decide)

theorem isDigit_ne_plus {c : Char} (h : c.isDigit = true) : c ≠ '+' := by
  rintro rfl; exact absurd h (by decide)

/-- `Number.parseInt` on an all-digit, nonempty character list returns its
decimal value. -/
theorem jsParseIntChars_all_digit {l : List Char} (hne : l ≠ [])
    (hall : ∀ c ∈ l, c.isDigit = true) :
    jsParseIntChars l = some (parseDigits l : Int) := by
  cases hd : l with
  | nil => exact absurd hd hne
  | cons c rest =>
    subst hd
    have hc : c.isDigit = true := hall c (List.mem_cons_self c rest)
    have hdrop : (c :: rest).dropWhile isJsSpace = c :: rest := by
      simp [List.dropWhile, isDigit_not_space hc]
    have htake : (c :: rest).takeWhile Char.isDigit = c :: rest :=
      List.takeWhile_eq_self_iff.mpr hall
    simp only [jsParseIntChars, hdrop, if_neg (isDigit_ne_dash hc),
      if_neg (isDigit_ne_plus hc), parseDigitPrefix, htake]
    simp

/-- `Number.parseInt` inverts decimal rendering. -/
theorem jsParseIntChars_natDecChars (n : Nat) :
    jsParseIntChars (natDecChars n) = some (n : Int) := by
  rw [jsParseIntChars_all_digit (natDecChars_ne_nil n) (natDecChars_all_digit n),
    parseDigits_natDecChars]

/-- Decimal renderings are injective (both parse back to their value). -/
theorem natDecChars_injective : Function.Injective natDecChars := by
  intro a b h
  have := parseDigits_natDecChars a
  rw [h, parseDigits_natDecChars] at this
  omega

/-! ## POSIX path primitives (Node's `path` module, POSIX flavour)

The repository runs Node's platform-specific `path`; the test-suite and the
claims use POSIX-style paths, which is what we model.  `path.resolve` is
modelled for the case of an absolute base directory, which is what every
call site supplies (`templateDir` is produced by `path.dirname` of an
absolute file path, pool roots by `path.resolve`). -/

/-- `path.isAbsolute` (POSIX). -/
def isAbsolutePath (s : String) : Bool :=
  match s.data with
  | '/' :: _ => true
  | _ => false

/-- Process already-split path segments: drop empty and `.` segments,
a `..` pops the previous segment (or is dropped at the root, as
`path.resolve` does for absolute paths). -/
def normSegs (segs : List (List Char)) : List (List Char) :=
  segs.foldl
    (fun acc seg =>
      if seg = [] ∨ seg = ['.'] then acc
      else if seg = ['.', '.'] then acc.dropLast
      else acc ++ [seg])
    []

/-- Rebuild an absolute path from normalised segments. -/
def joinSegs (segs : List (List Char)) : String :=
  match segs with
  | [] => "/"
  | _ => String.mk ((segs.map (fun seg => '/' :: seg)).flatten)

/-- Normalise an absolute path string. -/
def normalizeAbs (s : String) : String :=
  joinSegs (normSegs (splitOnChar '/' s.data))

/-- `path.resolve(base, p)` with `base` absolute (POSIX). -/
def pathResolve (base p : String) : String :=
  if isAbsolutePath p then normalizeAbs p
  else normalizeAbs (base ++ "/" ++ p)

/-- `path.join(dir, name)` for a normalised `dir` (no trailing slash) and a
slash-free `name` — the only shape the modelled call sites use. -/
def pathJoin (dir name : String) : String := dir ++ "/" ++ name

theorem pathJoin_right_injective (dir : String) {a b : String}
    (h : pathJoin dir a = pathJoin dir b) : a = b := by
  have hd : (pathJoin dir a).data = (pathJoin dir b).data := by rw [h]
  simp only [pathJoin, String.data_append] at hd
  exact String.ext (List.append_cancel_left hd)

/-- `path.basename` for the same shape of inputs. -/
def pathBasename (s : String) : String :=
  String.mk ((splitOnChar '/' s.data).getLast (splitOnChar_ne_nil '/' s.data))

/-- JS `${n}` for an integer-valued number. -/
def jsNumToString (i : Int) : String :=
  match i with
  | .ofNat n => String.mk (natDecChars n)
  | .negSucc n => String.mk ('-' :: natDecChars (n + 1))

/-! ## Filesystem state

A pool root is observed through `readDirEntries` (its directory entries) and
`pathExists` on individual paths.  `FS` packages both observations; all
modelled operations only read it, and report their would-be mutations in
explicit effect logs. -/

/-- One entry of `readDirEntries(targetPath)`. -/
structure DirEntry where
  name : String
  isDirectory : Bool
deriving DecidableEq, Repr

/-- Observable filesystem state at a pool root:
whether the root exists, its directory entries, and which paths exist
(lock markers, workspace files, slot directories referenced by name). -/
structure FS where
  rootExists : Bool
  entries : List DirEntry
  files : List String
deriving DecidableEq, Repr

/-- `pathExists` for a file-like path (lock markers, workspace files). -/
def FS.fileExists (fs : FS) (p : String) : Bool := p ∈ fs.files

/-- `pathExists` for an arbitrary path under the root: either a recorded file
or a directory entry of the root. -/
def FS.pathExistsUnder (fs : FS) (root p : String) : Bool :=
  p ∈ fs.files || fs.entries.any (fun e => pathJoin root e.name = p)

/-! ## Slot enumeration (shared by provision, unlock, and dispatch)

Each operation filters `readDirEntries` down to directories named
`subagent-<n>` with an integer-parsable suffix and sorts them by ordinal:

```ts
const suffix = entry.name.split("-")[1];
const parsed = Number.parseInt(suffix, 10);
if (!Number.isInteger(parsed)) continue;
```
-/

/-- `Number.parseInt(name.split("-")[1], 10)`, `none` for `NaN`
(`Number.isInteger(NaN)` is `false`). -/
def slotSuffixNum (name : String) : Option Int :=
  match (splitOnChar '-' name.data).get? 1 with
  | none => none
  | some suffix => jsParseIntChars suffix

/-- A slot directory that survived the enumeration filter. -/
structure Candidate where
  number : Int
  absolutePath : String
deriving DecidableEq, Repr

/-- `entry.name.startsWith("subagent-")`. -/
def isSubagentName (name : String) : Bool :=
  "subagent-".data.isPrefixOf name.data

/-- The candidate (if any) an entry contributes. -/
def candOf (targetPath : String) (e : DirEntry) : Option Candidate :=
  if e.isDirectory && isSubagentName e.name then
    (slotSuffixNum e.name).map (fun n => ⟨n, pathJoin targetPath e.name⟩)
  else none

/-- Enumeration pass: entries that are `subagent-` directories with an
integer suffix, in `readdir` order. -/
def candidates (targetPath : String) (entries : List DirEntry) : List Candidate :=
  entries.filterMap (candOf targetPath)

/-- The comparator `(a, b) => a.number - b.number` used with the (stable)
`Array.prototype.sort`. -/
def byNumber (a b : Candidate) : Prop := a.number ≤ b.number

instance : DecidableRel byNumber := fun a b => inferInstanceAs (Decidable (a.number ≤ b.number))

instance : IsTotal Candidate byNumber := ⟨fun a b => Int.le_total a.number b.number⟩

instance : IsTrans Candidate byNumber := ⟨fun _ _ _ => Int.le_trans⟩

/-- Stable ascending sort by ordinal (`.sort((a, b) => a.number - b.number)`). -/
def sortByNumber (l : List Candidate) : List Candidate :=
  l.insertionSort byNumber

/-- Default-comparator `Array.prototype.sort` on strings
(lexicographic by character codes), used for `skippedLocked`. -/
def jsStrLe (a b : String) : Prop := a.data ≤ b.data

instance : DecidableRel jsStrLe := fun a b => inferInstanceAs (Decidable (a.data ≤ b.data))

def jsSortStrings (l : List String) : List String :=
  l.insertionSort jsStrLe

theorem jsSortStrings_perm (l : List String) : List.Perm (jsSortStrings l) l :=
  List.perm_insertionSort jsStrLe l

/-! ## `provisionSubagents` (src/vscode/provision.ts)

The returned lists are pure functions of the observed filesystem; the
`writeFile` / `removeIfExists` calls are logged in `ProvisionEffects`.
`subagents` is an `Int` (the `Number.isInteger` guard is the type, the
`subagents < 1` guard is explicit). `targetPath` stands for
`path.resolve(targetRoot)`. -/

def DEFAULT_LOCK_NAME : String := "subagent.lock"

def DEFAULT_WAKEUP_FILENAME : String := "wakeup.chatmode.md"

/-- The template literal `subagent-${n}`. -/
def slotDirName (n : Int) : String := "subagent-" ++ jsNumToString n

/-- `path.join(subagentDir, `${path.basename(subagentDir)}.code-workspace`)`. -/
def workspaceDst (subagentDir : String) : String :=
  pathJoin subagentDir (pathBasename subagentDir ++ ".code-workspace")

/-- `path.join(subagentDir, DEFAULT_WAKEUP_FILENAME)`. -/
def wakeupDst (subagentDir : String) : String :=
  pathJoin subagentDir DEFAULT_WAKEUP_FILENAME

structure ProvisionOptions where
  targetPath : String
  subagents : Int
  lockName : String := DEFAULT_LOCK_NAME
  force : Bool := false
  dryRun : Bool := false
deriving Repr

structure ProvisionResult where
  created : List String
  skippedExisting : List String
  skippedLocked : List String
deriving DecidableEq, Repr

/-- Logged filesystem mutations (empty under `dryRun`). -/
structure ProvisionEffects where
  writes : List String
  removedLocks : List String
deriving DecidableEq, Repr

/-- Mutable state of the reuse loop over existing slots. -/
structure LoopState where
  created : List String
  skippedExisting : List String
  provisioned : Nat
  lockedSet : List String
  writes : List String
  removedLocks : List String
deriving DecidableEq, Repr

/-- The `for (const subagent of existingSubagents)` loop: each candidate is
skipped (locked, no `force`), force-recycled, force-rewritten, or reused
with lazy backfill; `break` once `subagents` units are consumed. -/
def provisionLoop (fs : FS) (opts : ProvisionOptions) (count : Nat) :
    List Candidate → LoopState → LoopState
  | [], s => s
  | c :: rest, s =>
    if s.provisioned ≥ count then s
    else
      let lockF := pathJoin c.absolutePath opts.lockName
      let wsDst := workspaceDst c.absolutePath
      let wkDst := wakeupDst c.absolutePath
      let isLocked := fs.fileExists lockF
      if isLocked && !opts.force then
        provisionLoop fs opts count rest s
      else if isLocked && opts.force then
        provisionLoop fs opts count rest
          { created := s.created ++ [c.absolutePath]
            skippedExisting := s.skippedExisting
            provisioned := s.provisioned + 1
            lockedSet := s.lockedSet.erase c.absolutePath
            writes := s.writes ++ (if opts.dryRun then [] else [wsDst, wkDst])
            removedLocks := s.removedLocks ++ (if opts.dryRun then [] else [lockF]) }
      else if !isLocked && opts.force then
        provisionLoop fs opts count rest
          { created := s.created ++ [c.absolutePath]
            skippedExisting := s.skippedExisting
            provisioned := s.provisioned + 1
            lockedSet := s.lockedSet
            writes := s.writes ++ (if opts.dryRun then [] else [wsDst, wkDst])
            removedLocks := s.removedLocks }
      else
        provisionLoop fs opts count rest
          { created := s.created
            skippedExisting := s.skippedExisting ++ [c.absolutePath]
            provisioned := s.provisioned + 1
            lockedSet := s.lockedSet
            writes := s.writes ++
              (if !opts.dryRun && !(fs.fileExists wsDst) then [wsDst, wkDst] else [])
            removedLocks := s.removedLocks }

/-- The `while (subagentsProvisioned < subagents)` loop creating
`subagent-(nextIndex+1), …`; returns (created dirs, logged writes). -/
def createNewSlots (targetPath : String) (dryRun : Bool) :
    Int → Nat → List String × List String
  | _, 0 => ([], [])
  | nextIndex, k + 1 =>
    let n := nextIndex + 1
    let dir := pathJoin targetPath (slotDirName n)
    let rest := createNewSlots targetPath dryRun n k
    (dir :: rest.1,
      (if dryRun then [] else [workspaceDst dir, wakeupDst dir]) ++ rest.2)

def provisionSubagents (fs : FS) (opts : ProvisionOptions) :
    Except String (ProvisionResult × ProvisionEffects) :=
  if opts.subagents < 1 then .error "subagents must be a positive integer"
  else
    -- after `ensureDir` (skipped under dryRun), a root that did not exist is
    -- empty, so enumeration sees `fs.entries` exactly when the root existed
    let entriesEff := if fs.rootExists then fs.entries else []
    let cands := candidates opts.targetPath entriesEff
    let highestNumber := cands.foldl (fun m c => max m c.number) 0
    let lockedInit :=
      (cands.filter (fun c => fs.fileExists (pathJoin c.absolutePath opts.lockName))).map
        (fun c => c.absolutePath)
    let sorted := sortByNumber cands
    let count := opts.subagents.toNat
    let st := provisionLoop fs opts count sorted
      ⟨[], [], 0, lockedInit, [], []⟩
    let fresh := createNewSlots opts.targetPath opts.dryRun highestNumber
      (count - st.provisioned)
    .ok ({ created := st.created ++ fresh.1
           skippedExisting := st.skippedExisting
           skippedLocked := jsSortStrings st.lockedSet },
         { writes := st.writes ++ fresh.2
           removedLocks := st.removedLocks })

/-! ## Characterising the fresh-slot loop -/

theorem createNewSlots_fst (t : String) (d : Bool) :
    ∀ (k : Nat) (next : Int),
      (createNewSlots t d next k).1 =
        (List.range k).map (fun (i : Nat) => pathJoin t (slotDirName (next + (i : Int) + 1))) := by
  intro k
  induction k with
  | zero => intro next; rfl
  | succ k ih =>
    intro next
    have h1 : (createNewSlots t d next (k + 1)).1
        = pathJoin t (slotDirName (next + 1)) :: (createNewSlots t d (next + 1) k).1 := rfl
    rw [h1, ih (next + 1), List.range_succ_eq_map, List.map_cons, List.map_map]
    congr 1
    · norm_num
    · refine List.map_congr_left (fun i _ => ?_)
      simp only [Function.comp_apply]
      have h2 : next + 1 + (i : Int) + 1 = next + (Nat.succ i : Nat) + 1 := by push_cast; ring
      rw [h2]

/-- Claim C1: provisioning `N ≥ 1` slots into an empty pool root
(`force = false`, `dryRun = false`) creates exactly `N` slots named
`subagent-1 … subagent-N` contiguously, with `skippedExisting` and
`skippedLocked` empty. -/
theorem provision_empty_pool (root : String) (rootEx : Bool) (files : List String)
    (N : Int) (hN : 1 ≤ N) :
    (provisionSubagents ⟨rootEx, [], files⟩
        { targetPath := root, subagents := N }).map Prod.fst =
      .ok { created := (List.range N.toNat).map
              (fun (i : Nat) => pathJoin root (slotDirName ((i : Int) + 1)))
            skippedExisting := []
            skippedLocked := [] } := by
  have hne : ¬ N < 1 := by omega
  simp only [provisionSubagents, hne, if_false]
  have hentries : (if (⟨rootEx, [], files⟩ : FS).rootExists then
      (⟨rootEx, [], files⟩ : FS).entries else []) = [] := by
    cases rootEx <;> rfl
  simp only [hentries, candidates, List.filterMap_nil, List.foldl_nil, List.filter_nil,
    List.map_nil, sortByNumber, List.insertionSort, provisionLoop, jsSortStrings]
  simp only [Except.map, createNewSlots_fst]
  refine congrArg Except.ok ?_
  refine congrArg (fun l => ProvisionResult.mk l [] []) ?_
  simp only [Nat.sub_zero]
  exact List.map_congr_left (fun i _ => by norm_num)

/-- Witness for C1 at `N = 3`. -/
theorem provision_empty_pool_witness :
    (provisionSubagents ⟨true, [], []⟩
        { targetPath := "/r", subagents := 3 }).map Prod.fst =
      .ok { created := ["/r/subagent-1", "/r/subagent-2", "/r/subagent-3"]
            skippedExisting := []
            skippedLocked := [] } := by
  rw [provision_empty_pool "/r" true [] 3 (by norm_num)]
  rfl

/-! ## Canonical slot names -/

theorem slotDirName_natCast (m : Nat) :
    slotDirName (m : Int) = "subagent-" ++ String.mk (natDecChars m) := rfl

theorem isSubagentName_append (s : String) :
    isSubagentName ("subagent-" ++ s) = true := by
  simp only [isSubagentName, String.data_append]
  exact List.isPrefixOf_iff_prefix.mpr (List.prefix_append _ _)

theorem data_subagent_append (ds : List Char) :
    ("subagent-" ++ String.mk ds).data = "subagent".data ++ '-' :: ds := by
  simp only [String.data_append]
  rfl

theorem slotSuffixNum_canonical (m : Nat) :
    slotSuffixNum ("subagent-" ++ String.mk (natDecChars m)) = some (m : Int) := by
  have hnd : '-' ∉ natDecChars m := fun hm =>
    isDigit_ne_dash (natDecChars_all_digit m _ hm) rfl
  have hxs : '-' ∉ "subagent".data := by decide
  simp only [slotSuffixNum, data_subagent_append, splitOnChar_append_sep _ hxs,
    splitOnChar_of_not_mem hnd]
  simpa using jsParseIntChars_natDecChars m

theorem candOf_canonical (t : String) (m : Nat) :
    candOf t ⟨slotDirName (m : Int), true⟩ =
      some ⟨(m : Int), pathJoin t (slotDirName (m : Int))⟩ := by
  simp only [candOf, slotDirName_natCast, isSubagentName_append, Bool.and_true,
    Bool.true_and, slotSuffixNum_canonical, if_pos rfl, Option.map_some]
  rfl

/-- `filterMap` over a list where the function always produces `some`. -/
theorem filterMap_eq_map_of_forall_some {α β : Type} {f : α → Option β} {g : α → β}
    (l : List α) (h : ∀ a ∈ l, f a = some (g a)) : l.filterMap f = l.map g := by
  induction l with
  | nil => rfl
  | cons a rest ih =>
    simp only [List.filterMap_cons, h a (List.mem_cons_self a rest), List.map_cons]
    rw [ih (fun b hb => h b (List.mem_cons_of_mem a hb))]

/-- The canonical fully-populated pool `subagent-1 … subagent-K`. -/
def canonicalEntries (K : Nat) : List DirEntry :=
  (List.range K).map (fun (i : Nat) => ⟨slotDirName ((i : Int) + 1), true⟩)

def canonicalCands (root : String) (K : Nat) : List Candidate :=
  (List.range K).map
    (fun (i : Nat) => ⟨(i : Int) + 1, pathJoin root (slotDirName ((i : Int) + 1))⟩)

theorem candidates_canonical (root : String) (K : Nat) :
    candidates root (canonicalEntries K) = canonicalCands root K := by
  simp only [candidates, canonicalEntries, canonicalCands, List.filterMap_map]
  refine filterMap_eq_map_of_forall_some _ (fun i _ => ?_)
  have h := candOf_canonical root (i + 1)
  simpa [Function.comp, Nat.cast_add, Nat.cast_one] using h

theorem canonicalCands_sorted (root : String) (K : Nat) :
    sortByNumber (canonicalCands root K) = canonicalCands root K := by
  refine List.Sorted.insertionSort_eq ?_
  simp only [canonicalCands, List.Sorted, List.pairwise_map]
  exact (List.pairwise_lt_range K).imp (fun {a b} hab => by
    simp only [byNumber]; omega)

theorem canonicalCands_highest (root : String) (K : Nat) :
    (canonicalCands root K).foldl (fun m c => max m c.number) 0 = (K : Int) := by
  induction K with
  | zero => rfl
  | succ K ih =>
    simp only [canonicalCands, List.range_succ, List.map_append, List.foldl_append,
      List.map_cons, List.map_nil, List.foldl_cons, List.foldl_nil]
    simp only [canonicalCands] at ih
    rw [ih]
    push_cast
    omega

/-- With `force = false`, a fully locked prefix of existing slots is skipped
without consuming any units or touching the loop state. -/
theorem provisionLoop_all_locked (fs : FS) (opts : ProvisionOptions) (count : Nat)
    (hforce : opts.force = false) :
    ∀ l : List Candidate,
      (∀ c ∈ l, fs.fileExists (pathJoin c.absolutePath opts.lockName) = true) →
      ∀ s, provisionLoop fs opts count l s = s := by
  intro l
  induction l with
  | nil => intro _ s; rfl
  | cons c rest ih =>
    intro h s
    have hc : fs.fileExists (pathJoin c.absolutePath opts.lockName) = true :=
      h c (List.mem_cons_self c rest)
    have hrest := fun b hb => h b (List.mem_cons_of_mem c hb)
    by_cases hp : s.provisioned ≥ count
    · simp [provisionLoop, hp]
    · simp only [provisionLoop, if_neg hp, hc, hforce, Bool.not_false, Bool.and_true,
        if_pos rfl]
      exact ih hrest s

/-- Claim C2: provisioning `M` into a pool of exactly `subagent-1 … subagent-K`,
all locked, with `force = false`, creates exactly `M` new slots
`subagent-(K+1) … subagent-(K+M)` and reports all of `subagent-1 … subagent-K`
as `skippedLocked`, with `skippedExisting` empty. -/
theorem provision_locked_pool (root : String) (files : List String) (K : Nat)
    (M : Int) (hM : 1 ≤ M)
    (hlock : ∀ i, i < K →
      FS.fileExists ⟨true, canonicalEntries K, files⟩
        (pathJoin (pathJoin root (slotDirName ((i : Int) + 1))) DEFAULT_LOCK_NAME)
        = true) :
    ∃ res eff,
      provisionSubagents ⟨true, canonicalEntries K, files⟩
          { targetPath := root, subagents := M } = .ok (res, eff) ∧
      res.created = (List.range M.toNat).map
        (fun (i : Nat) => pathJoin root (slotDirName ((K : Int) + (i : Int) + 1))) ∧
      res.skippedExisting = [] ∧
      List.Perm res.skippedLocked
        ((List.range K).map
          (fun (i : Nat) => pathJoin root (slotDirName ((i : Int) + 1)))) := by
  have hne : ¬ M < 1 := by omega
  have hlockc : ∀ c ∈ canonicalCands root K,
      FS.fileExists ⟨true, canonicalEntries K, files⟩
        (pathJoin c.absolutePath DEFAULT_LOCK_NAME) = true := by
    intro c hc
    simp only [canonicalCands, List.mem_map, List.mem_range] at hc
    obtain ⟨i, hi, rfl⟩ := hc
    exact hlock i hi
  simp only [provisionSubagents, hne, if_false]
  simp only [show (⟨true, canonicalEntries K, files⟩ : FS).rootExists = true from rfl,
    if_true, show (⟨true, canonicalEntries K, files⟩ : FS).entries = canonicalEntries K
      from rfl, candidates_canonical, canonicalCands_sorted, canonicalCands_highest]
  rw [provisionLoop_all_locked _ _ _ rfl _ hlockc]
  refine ⟨_, _, rfl, ?_, rfl, ?_⟩
  · simp only [Nat.sub_zero, createNewSlots_fst]
    refine List.map_congr_left (fun i _ => ?_)
    norm_num
  · have hfilter : (canonicalCands root K).filter
        (fun c => FS.fileExists ⟨true, canonicalEntries K, files⟩
          (pathJoin c.absolutePath DEFAULT_LOCK_NAME)) = canonicalCands root K :=
      List.filter_eq_self.mpr (fun c hc => hlockc c hc)
    simp only [hfilter]
    refine (jsSortStrings_perm _).trans ?_
    simp only [canonicalCands, List.map_map, Function.comp]
    exact List.Perm.refl _

/-- Witness for C2 at `K = 2`, `M = 2`. -/
theorem provision_locked_pool_witness :
    ∃ res eff,
      provisionSubagents
          ⟨true, canonicalEntries 2,
            ["/r/subagent-1/subagent.lock", "/r/subagent-2/subagent.lock"]⟩
          { targetPath := "/r", subagents := 2 } = .ok (res, eff) ∧
      res.created = (List.range (2 : Int).toNat).map
        (fun (i : Nat) => pathJoin "/r" (slotDirName ((2 : Nat) + (i : Int) + 1))) ∧
      res.skippedExisting = [] ∧
      List.Perm res.skippedLocked
        ((List.range 2).map
          (fun (i : Nat) => pathJoin "/r" (slotDirName ((i : Int) + 1)))) :=
  provision_locked_pool "/r"
    ["/r/subagent-1/subagent.lock", "/r/subagent-2/subagent.lock"] 2 2
    (by norm_num) (by decide)

/-! ## The reuse loop under `force` -/

/-- With `force = true` and `dryRun = false` every visited slot — locked or
not — is consumed, recorded as created, and has its workspace and wakeup
files written, until the requested count is reached. -/
theorem provisionLoop_force (fs : FS) (opts : ProvisionOptions) (count : Nat)
    (hforce : opts.force = true) (hdry : opts.dryRun = false) :
    ∀ (l : List Candidate) (s : LoopState),
      (provisionLoop fs opts count l s).created
          = s.created ++ ((l.take (count - s.provisioned)).map
              (fun c => c.absolutePath)) ∧
      (provisionLoop fs opts count l s).skippedExisting = s.skippedExisting ∧
      (provisionLoop fs opts count l s).provisioned
          = s.provisioned + min (count - s.provisioned) l.length ∧
      (provisionLoop fs opts count l s).writes
          = s.writes ++ ((l.take (count - s.provisioned)).flatMap
              (fun c => [workspaceDst c.absolutePath, wakeupDst c.absolutePath])) := by
  intro l
  induction l with
  | nil => intro s; simp [provisionLoop]
  | cons c rest ih =>
    intro s
    by_cases hp : s.provisioned ≥ count
    · have hz : count - s.provisioned = 0 := by omega
      simp [provisionLoop, hp, hz]
    · have hk : count - s.provisioned = (count - (s.provisioned + 1)) + 1 := by omega
      have htake : ∀ (f : Candidate → List String),
          ((c :: rest).take (count - s.provisioned)).flatMap f
            = f c ++ (rest.take (count - (s.provisioned + 1))).flatMap f := by
        intro f; rw [hk]; simp [List.take_succ_cons]
      have htakem : ((c :: rest).take (count - s.provisioned)).map
            (fun c => c.absolutePath)
          = c.absolutePath :: (rest.take (count - (s.provisioned + 1))).map
              (fun c => c.absolutePath) := by
        rw [hk]; simp [List.take_succ_cons]
      have hmin : min (count - s.provisioned) (rest.length + 1)
          = min (count - (s.provisioned + 1)) rest.length + 1 := by omega
      by_cases hl : fs.fileExists (pathJoin c.absolutePath opts.lockName) = true
      · have hstep : provisionLoop fs opts count (c :: rest) s
            = provisionLoop fs opts count rest
              { created := s.created ++ [c.absolutePath]
                skippedExisting := s.skippedExisting
                provisioned := s.provisioned + 1
                lockedSet := s.lockedSet.erase c.absolutePath
                writes := s.writes
                  ++ [workspaceDst c.absolutePath, wakeupDst c.absolutePath]
                removedLocks := s.removedLocks
                  ++ [pathJoin c.absolutePath opts.lockName] } := by
          simp [provisionLoop, if_neg hp, hl, hforce, hdry]
        obtain ⟨h1, h2, h3, h4⟩ := ih
          { created := s.created ++ [c.absolutePath]
            skippedExisting := s.skippedExisting
            provisioned := s.provisioned + 1
            lockedSet := s.lockedSet.erase c.absolutePath
            writes := s.writes ++ [workspaceDst c.absolutePath, wakeupDst c.absolutePath]
            removedLocks := s.removedLocks
              ++ [pathJoin c.absolutePath opts.lockName] }
        rw [hstep]
        refine ⟨?_, by simpa using h2, ?_, ?_⟩
        · rw [h1, htakem]; simp
        · rw [h3]; simp only [List.length_cons, hmin]; omega
        · rw [h4, htake]; simp
      · replace hl : fs.fileExists (pathJoin c.absolutePath opts.lockName) = false := by
          simpa using hl
        have hstep : provisionLoop fs opts count (c :: rest) s
            = provisionLoop fs opts count rest
              { created := s.created ++ [c.absolutePath]
                skippedExisting := s.skippedExisting
                provisioned := s.provisioned + 1
                lockedSet := s.lockedSet
                writes := s.writes
                  ++ [workspaceDst c.absolutePath, wakeupDst c.absolutePath]
                removedLocks := s.removedLocks } := by
          simp [provisionLoop, if_neg hp, hl, hforce, hdry]
        obtain ⟨h1, h2, h3, h4⟩ := ih
          { created := s.created ++ [c.absolutePath]
            skippedExisting := s.skippedExisting
            provisioned := s.provisioned + 1
            lockedSet := s.lockedSet
            writes := s.writes ++ [workspaceDst c.absolutePath, wakeupDst c.absolutePath]
            removedLocks := s.removedLocks }
        rw [hstep]
        refine ⟨?_, by simpa using h2, ?_, ?_⟩
        · rw [h1, htakem]; simp
        · rw [h3]; simp only [List.length_cons, hmin]; omega
        · rw [h4, htake]; simp

theorem createNewSlots_length (t : String) (d : Bool) (k : Nat) (next : Int) :
    (createNewSlots t d next k).1.length = k := by
  rw [createNewSlots_fst]; simp

/-- Claim C3: under `force = true`, `dryRun = false`, every existing slot still
needed to satisfy the requested count — in particular every unlocked one —
has its configuration written unconditionally (no hypothesis about an
existing workspace file), lands in `created` and not in `skippedExisting`,
and the consumed units add up to the requested count. -/
theorem provision_force_rewrites (fs : FS) (root lockName : String) (count : Int)
    (hcount : 1 ≤ count) :
    ∃ res eff,
      provisionSubagents fs (ProvisionOptions.mk root count lockName true false)
        = .ok (res, eff) ∧
      res.skippedExisting = [] ∧
      (∀ c ∈ (sortByNumber (candidates root
          (if fs.rootExists then fs.entries else []))).take count.toNat,
        c.absolutePath ∈ res.created ∧
        c.absolutePath ∉ res.skippedExisting ∧
        workspaceDst c.absolutePath ∈ eff.writes ∧
        wakeupDst c.absolutePath ∈ eff.writes) ∧
      res.created.length + res.skippedExisting.length = count.toNat := by
  have hne : ¬ count < 1 := by omega
  simp only [provisionSubagents, hne, if_false]
  obtain ⟨h1, h2, h3, h4⟩ := provisionLoop_force fs
    (ProvisionOptions.mk root count lockName true false) count.toNat rfl rfl
    (sortByNumber (candidates root (if fs.rootExists then fs.entries else [])))
    ⟨[], [], 0, _, [], []⟩
  refine ⟨_, _, rfl, ?_, ?_, ?_⟩
  · exact h2
  · intro c hc
    have hc' : c ∈ (sortByNumber (candidates root
        (if fs.rootExists then fs.entries else []))).take (count.toNat - 0) := by
      simpa using hc
    refine ⟨?_, ?_, ?_, ?_⟩
    · simp only [h1, List.nil_append]
      exact List.mem_append_left _ (List.mem_map_of_mem _ (by simpa using hc'))
    · simp [h2]
    · simp only [h4, List.nil_append]
      refine List.mem_append_left _ ?_
      exact List.mem_flatMap.mpr ⟨c, by simpa using hc', by simp⟩
    · simp only [h4, List.nil_append]
      refine List.mem_append_left _ ?_
      exact List.mem_flatMap.mpr ⟨c, by simpa using hc', by simp⟩
  · simp only [List.length_append, h1, h2, createNewSlots_length, List.nil_append,
      List.length_map, List.length_take, List.length_nil, h3]
    omega

/-- Witness for C3: one unlocked slot whose workspace file already exists,
`count = 1`. -/
theorem provision_force_rewrites_witness :
    ∃ res eff,
      provisionSubagents
          ⟨true, [⟨"subagent-1", true⟩], ["/r/subagent-1/subagent-1.code-workspace"]⟩
          (ProvisionOptions.mk "/r" 1 DEFAULT_LOCK_NAME true false)
        = .ok (res, eff) ∧
      res.skippedExisting = [] ∧
      (∀ c ∈ (sortByNumber (candidates "/r"
          (if (⟨true, [⟨"subagent-1", true⟩],
              ["/r/subagent-1/subagent-1.code-workspace"]⟩ : FS).rootExists then
            (⟨true, [⟨"subagent-1", true⟩],
              ["/r/subagent-1/subagent-1.code-workspace"]⟩ : FS).entries
          else []))).take (1 : Int).toNat,
        c.absolutePath ∈ res.created ∧
        c.absolutePath ∉ res.skippedExisting ∧
        workspaceDst c.absolutePath ∈ eff.writes ∧
        wakeupDst c.absolutePath ∈ eff.writes) ∧
      res.created.length + res.skippedExisting.length = (1 : Int).toNat :=
  provision_force_rewrites
    ⟨true, [⟨"subagent-1", true⟩], ["/r/subagent-1/subagent-1.code-workspace"]⟩
    "/r" DEFAULT_LOCK_NAME 1 (by norm_num)

/-! ## Generic loop invariants -/

/-- One iteration of the reuse loop, as a state transformer (used to reason
uniformly about the four branches). -/
def stepState (fs : FS) (opts : ProvisionOptions) (c : Candidate) (s : LoopState) :
    LoopState :=
  let lockF := pathJoin c.absolutePath opts.lockName
  let wsDst := workspaceDst c.absolutePath
  let wkDst := wakeupDst c.absolutePath
  let isLocked := fs.fileExists lockF
  if isLocked && !opts.force then s
  else if isLocked && opts.force then
    { created := s.created ++ [c.absolutePath]
      skippedExisting := s.skippedExisting
      provisioned := s.provisioned + 1
      lockedSet := s.lockedSet.erase c.absolutePath
      writes := s.writes ++ (if opts.dryRun then [] else [wsDst, wkDst])
      removedLocks := s.removedLocks ++ (if opts.dryRun then [] else [lockF]) }
  else if !isLocked && opts.force then
    { created := s.created ++ [c.absolutePath]
      skippedExisting := s.skippedExisting
      provisioned := s.provisioned + 1
      lockedSet := s.lockedSet
      writes := s.writes ++ (if opts.dryRun then [] else [wsDst, wkDst])
      removedLocks := s.removedLocks }
  else
    { created := s.created
      skippedExisting := s.skippedExisting ++ [c.absolutePath]
      provisioned := s.provisioned + 1
      lockedSet := s.lockedSet
      writes := s.writes ++
        (if !opts.dryRun && !(fs.fileExists wsDst) then [wsDst, wkDst] else [])
      removedLocks := s.removedLocks }

theorem provisionLoop_cons (fs : FS) (opts : ProvisionOptions) (count : Nat)
    (c : Candidate) (rest : List Candidate) (s : LoopState) :
    provisionLoop fs opts count (c :: rest) s =
      if s.provisioned ≥ count then s
      else provisionLoop fs opts count rest (stepState fs opts c s) := by
  by_cases hp : s.provisioned ≥ count
  · simp [provisionLoop, hp]
  · by_cases hl : fs.fileExists (pathJoin c.absolutePath opts.lockName) = true <;>
      by_cases hf : opts.force = true
    · simp [provisionLoop, stepState, hp, hl, hf]
    · replace hf : opts.force = false := by simpa using hf
      simp [provisionLoop, stepState, hp, hl, hf]
    · replace hl : fs.fileExists (pathJoin c.absolutePath opts.lockName) = false := by
        simpa using hl
      simp [provisionLoop, stepState, hp, hl, hf]
    · replace hl : fs.fileExists (pathJoin c.absolutePath opts.lockName) = false := by
        simpa using hl
      replace hf : opts.force = false := by simpa using hf
      simp [provisionLoop, stepState, hp, hl, hf]

/-- Field-level case analysis on one loop iteration: skip (locked without
force), recycle (created, lock-set erase), force rewrite (created), or
reuse (skippedExisting). -/
theorem stepState_fields (fs : FS) (opts : ProvisionOptions) (c : Candidate)
    (s : LoopState) :
    (fs.fileExists (pathJoin c.absolutePath opts.lockName) = true ∧
      opts.force = false ∧
      (stepState fs opts c s).created = s.created ∧
      (stepState fs opts c s).skippedExisting = s.skippedExisting ∧
      (stepState fs opts c s).provisioned = s.provisioned ∧
      (stepState fs opts c s).lockedSet = s.lockedSet) ∨
    (fs.fileExists (pathJoin c.absolutePath opts.lockName) = true ∧
      opts.force = true ∧
      (stepState fs opts c s).created = s.created ++ [c.absolutePath] ∧
      (stepState fs opts c s).skippedExisting = s.skippedExisting ∧
      (stepState fs opts c s).provisioned = s.provisioned + 1 ∧
      (stepState fs opts c s).lockedSet = s.lockedSet.erase c.absolutePath) ∨
    (fs.fileExists (pathJoin c.absolutePath opts.lockName) = false ∧
      opts.force = true ∧
      (stepState fs opts c s).created = s.created ++ [c.absolutePath] ∧
      (stepState fs opts c s).skippedExisting = s.skippedExisting ∧
      (stepState fs opts c s).provisioned = s.provisioned + 1 ∧
      (stepState fs opts c s).lockedSet = s.lockedSet) ∨
    (fs.fileExists (pathJoin c.absolutePath opts.lockName) = false ∧
      opts.force = false ∧
      (stepState fs opts c s).created = s.created ∧
      (stepState fs opts c s).skippedExisting = s.skippedExisting ++ [c.absolutePath] ∧
      (stepState fs opts c s).provisioned = s.provisioned + 1 ∧
      (stepState fs opts c s).lockedSet = s.lockedSet) := by
  by_cases hl : fs.fileExists (pathJoin c.absolutePath opts.lockName) = true <;>
    by_cases hf : opts.force = true
  · exact Or.inr (Or.inl ⟨hl, hf, by simp [stepState, hl, hf], by simp [stepState, hl, hf],
      by simp [stepState, hl, hf], by simp [stepState, hl, hf]⟩)
  · replace hf : opts.force = false := by simpa using hf
    exact Or.inl ⟨hl, hf, by simp [stepState, hl, hf], by simp [stepState, hl, hf],
      by simp [stepState, hl, hf], by simp [stepState, hl, hf]⟩
  · replace hl : fs.fileExists (pathJoin c.absolutePath opts.lockName) = false := by
      simpa using hl
    exact Or.inr (Or.inr (Or.inl ⟨hl, hf, by simp [stepState, hl, hf],
      by simp [stepState, hl, hf], by simp [stepState, hl, hf],
      by simp [stepState, hl, hf]⟩))
  · replace hl : fs.fileExists (pathJoin c.absolutePath opts.lockName) = false := by
      simpa using hl
    replace hf : opts.force = false := by simpa using hf
    exact Or.inr (Or.inr (Or.inr ⟨hl, hf, by simp [stepState, hl, hf],
      by simp [stepState, hl, hf], by simp [stepState, hl, hf],
      by simp [stepState, hl, hf]⟩))

/-- Unit accounting: every element pushed to `created`/`skippedExisting`
consumes exactly one unit, and the consumed units never exceed the request. -/
theorem provisionLoop_counts (fs : FS) (opts : ProvisionOptions) (count : Nat) :
    ∀ (l : List Candidate) (s : LoopState),
      (provisionLoop fs opts count l s).created.length
          + (provisionLoop fs opts count l s).skippedExisting.length
          + s.provisioned
        = s.created.length + s.skippedExisting.length
          + (provisionLoop fs opts count l s).provisioned ∧
      s.provisioned ≤ (provisionLoop fs opts count l s).provisioned ∧
      (s.provisioned ≤ count → (provisionLoop fs opts count l s).provisioned ≤ count) := by
  intro l
  induction l with
  | nil =>
    intro s
    refine ⟨?_, ?_, fun h => ?_⟩ <;> simp only [provisionLoop] <;> omega
  | cons c rest ih =>
    intro s
    rw [provisionLoop_cons]
    by_cases hp : s.provisioned ≥ count
    · rw [if_pos hp]
      exact ⟨by omega, le_refl _, fun h => h⟩
    · rw [if_neg hp]
      obtain ⟨i1, i2, i3⟩ := ih (stepState fs opts c s)
      rcases stepState_fields fs opts c s with ⟨_, _, h1, h2, h3, _⟩ |
        ⟨_, _, h1, h2, h3, _⟩ | ⟨_, _, h1, h2, h3, _⟩ | ⟨_, _, h1, h2, h3, _⟩ <;>
        rw [h1, h2, h3] at i1 <;> rw [h3] at i2 i3 <;>
        (try simp only [List.length_append, List.length_cons, List.length_nil] at i1) <;>
        exact ⟨by omega, by omega, fun h => i3 (by omega)⟩

/-- Provenance: loop outputs only extend the incoming lists with visited
slot directories, and the locked set only shrinks. -/
theorem provisionLoop_mem (fs : FS) (opts : ProvisionOptions) (count : Nat) :
    ∀ (l : List Candidate) (s : LoopState),
      (∀ p ∈ (provisionLoop fs opts count l s).created,
        p ∈ s.created ∨ p ∈ l.map (fun c => c.absolutePath)) ∧
      (∀ p ∈ (provisionLoop fs opts count l s).skippedExisting,
        p ∈ s.skippedExisting ∨ p ∈ l.map (fun c => c.absolutePath)) ∧
      (∀ p ∈ (provisionLoop fs opts count l s).lockedSet, p ∈ s.lockedSet) := by
  intro l
  induction l with
  | nil =>
    intro s
    refine ⟨fun p hp => Or.inl ?_, fun p hp => Or.inl ?_, fun p hp => ?_⟩ <;>
      simpa only [provisionLoop] using hp
  | cons c rest ih =>
    intro s
    rw [provisionLoop_cons]
    by_cases hp : s.provisioned ≥ count
    · rw [if_pos hp]
      exact ⟨fun p hp => Or.inl hp, fun p hp => Or.inl hp, fun p hp => hp⟩
    · rw [if_neg hp]
      obtain ⟨i1, i2, i3⟩ := ih (stepState fs opts c s)
      have weaken : ∀ (p : String), p ∈ rest.map (fun c => c.absolutePath) →
          p ∈ (c :: rest).map (fun c => c.absolutePath) := by
        intro p hp; simp only [List.map_cons]; exact List.mem_cons_of_mem _ hp
      have hsplit : ∀ (xs : List String) (p : String),
          p ∈ xs ++ [c.absolutePath] → p ∈ xs ∨
            p ∈ (c :: rest).map (fun c => c.absolutePath) := by
        intro xs p hp
        rcases List.mem_append.mp hp with h | h
        · exact Or.inl h
        · simp only [List.mem_singleton] at h
          exact Or.inr (h ▸ by simp)
      rcases stepState_fields fs opts c s with ⟨_, _, h1, h2, _, h4⟩ |
        ⟨_, _, h1, h2, _, h4⟩ | ⟨_, _, h1, h2, _, h4⟩ | ⟨_, _, h1, h2, _, h4⟩ <;>
        rw [h1] at i1 <;> rw [h2] at i2 <;> rw [h4] at i3
      · exact ⟨fun p hp => (i1 p hp).imp id (weaken p),
          fun p hp => (i2 p hp).imp id (weaken p), i3⟩
      · refine ⟨fun p hp => ?_, fun p hp => (i2 p hp).imp id (weaken p),
          fun p hp => List.erase_subset _ _ (i3 p hp)⟩
        rcases i1 p hp with h | h
        · exact hsplit _ p h
        · exact Or.inr (weaken p h)
      · refine ⟨fun p hp => ?_, fun p hp => (i2 p hp).imp id (weaken p), i3⟩
        rcases i1 p hp with h | h
        · exact hsplit _ p h
        · exact Or.inr (weaken p h)
      · refine ⟨fun p hp => (i1 p hp).imp id (weaken p), fun p hp => ?_, i3⟩
        rcases i2 p hp with h | h
        · exact hsplit _ p h
        · exact Or.inr (weaken p h)

/-- Disjointness: when visited slot directories are distinct, no directory
ends up both `created` and `skippedExisting`. -/
theorem provisionLoop_disjoint (fs : FS) (opts : ProvisionOptions) (count : Nat) :
    ∀ (l : List Candidate) (s : LoopState),
      (l.map (fun c => c.absolutePath)).Nodup →
      (∀ p ∈ l.map (fun c => c.absolutePath),
        p ∉ s.created ∧ p ∉ s.skippedExisting) →
      (∀ p, ¬(p ∈ s.created ∧ p ∈ s.skippedExisting)) →
      ∀ p, ¬(p ∈ (provisionLoop fs opts count l s).created ∧
             p ∈ (provisionLoop fs opts count l s).skippedExisting) := by
  intro l
  induction l with
  | nil =>
    intro s _ _ h3 p hp
    exact h3 p (by simpa only [provisionLoop] using hp)
  | cons c rest ih =>
    intro s hnd h2 h3
    rw [provisionLoop_cons]
    by_cases hp : s.provisioned ≥ count
    · rw [if_pos hp]; exact h3
    · rw [if_neg hp]
      simp only [List.map_cons, List.nodup_cons] at hnd
      obtain ⟨hcd, hndr⟩ := hnd
      have h2c : c.absolutePath ∉ s.created ∧ c.absolutePath ∉ s.skippedExisting :=
        h2 c.absolutePath (by simp)
      have h2r : ∀ p ∈ rest.map (fun c => c.absolutePath),
          p ∉ s.created ∧ p ∉ s.skippedExisting :=
        fun p hp => h2 p (by simp only [List.map_cons]; exact List.mem_cons_of_mem _ hp)
      have hmemsingle : ∀ (xs : List String) (p : String), p ∈ xs ++ [c.absolutePath] →
          p ∈ xs ∨ p = c.absolutePath := by
        intro xs p hp
        rcases List.mem_append.mp hp with h | h
        · exact Or.inl h
        · exact Or.inr (by simpa using h)
      rcases stepState_fields fs opts c s with ⟨_, _, h1, hsk, _, _⟩ |
        ⟨_, _, h1, hsk, _, _⟩ | ⟨_, _, h1, hsk, _, _⟩ | ⟨_, _, h1, hsk, _, _⟩
      · refine ih (stepState fs opts c s) hndr ?_ ?_
        · intro p hpm
          rw [h1, hsk]
          exact h2r p hpm
        · intro p hpair
          rw [h1, hsk] at hpair
          exact h3 p hpair
      · refine ih (stepState fs opts c s) hndr ?_ ?_
        · intro p hpm
          have hne : p ≠ c.absolutePath := fun he => hcd (he ▸ hpm)
          obtain ⟨hpc, hps⟩ := h2r p hpm
          rw [h1, hsk]
          refine ⟨fun hmem => ?_, hps⟩
          rcases hmemsingle _ p hmem with h | h
          · exact hpc h
          · exact hne h
        · intro p hpair
          rw [h1, hsk] at hpair
          obtain ⟨hpc, hps⟩ := hpair
          rcases hmemsingle _ p hpc with h | h
          · exact h3 p ⟨h, hps⟩
          · exact h2c.2 (h ▸ hps)
      · refine ih (stepState fs opts c s) hndr ?_ ?_
        · intro p hpm
          have hne : p ≠ c.absolutePath := fun he => hcd (he ▸ hpm)
          obtain ⟨hpc, hps⟩ := h2r p hpm
          rw [h1, hsk]
          refine ⟨fun hmem => ?_, hps⟩
          rcases hmemsingle _ p hmem with h | h
          · exact hpc h
          · exact hne h
        · intro p hpair
          rw [h1, hsk] at hpair
          obtain ⟨hpc, hps⟩ := hpair
          rcases hmemsingle _ p hpc with h | h
          · exact h3 p ⟨h, hps⟩
          · exact h2c.2 (h ▸ hps)
      · refine ih (stepState fs opts c s) hndr ?_ ?_
        · intro p hpm
          have hne : p ≠ c.absolutePath := fun he => hcd (he ▸ hpm)
          obtain ⟨hpc, hps⟩ := h2r p hpm
          rw [h1, hsk]
          refine ⟨hpc, fun hmem => ?_⟩
          rcases hmemsingle _ p hmem with h | h
          · exact hps h
          · exact hne h
        · intro p hpair
          rw [h1, hsk] at hpair
          obtain ⟨hpc, hps⟩ := hpair
          rcases hmemsingle _ p hps with h | h
          · exact h3 p ⟨hpc, h⟩
          · exact h2c.1 (h ▸ hpc)

/-- Slots recorded as `created` never remain in the locked set. -/
theorem provisionLoop_lockedSet (fs : FS) (opts : ProvisionOptions) (count : Nat) :
    ∀ (l : List Candidate) (s : LoopState),
      s.lockedSet.Nodup →
      (∀ p ∈ s.created, p ∉ s.lockedSet) →
      (∀ c' ∈ l, fs.fileExists (pathJoin c'.absolutePath opts.lockName) = false →
        c'.absolutePath ∉ s.lockedSet) →
      ∀ p ∈ (provisionLoop fs opts count l s).created,
        p ∉ (provisionLoop fs opts count l s).lockedSet := by
  intro l
  induction l with
  | nil =>
    intro s _ h2 _ p hpc
    exact h2 p (by simpa only [provisionLoop] using hpc)
  | cons c rest ih =>
    intro s hnd h2 h3
    rw [provisionLoop_cons]
    by_cases hp : s.provisioned ≥ count
    · rw [if_pos hp]; exact h2
    · rw [if_neg hp]
      have h3r : ∀ c' ∈ rest,
          fs.fileExists (pathJoin c'.absolutePath opts.lockName) = false →
          c'.absolutePath ∉ s.lockedSet :=
        fun c' hc' => h3 c' (List.mem_cons_of_mem _ hc')
      rcases stepState_fields fs opts c s with ⟨_, _, h1, _, _, h4⟩ |
        ⟨_, _, h1, _, _, h4⟩ | ⟨hl, _, h1, _, _, h4⟩ | ⟨_, _, h1, _, _, h4⟩
      · refine ih (stepState fs opts c s) (h4 ▸ hnd) ?_ ?_
        · intro p hpc; rw [h1] at hpc; rw [h4]; exact h2 p hpc
        · intro c' hc' hul; rw [h4]; exact h3r c' hc' hul
      · refine ih (stepState fs opts c s) (h4 ▸ hnd.erase _) ?_ ?_
        · intro p hpc
          rw [h1] at hpc
          rw [h4]
          rcases List.mem_append.mp hpc with h | h
          · exact fun hmem => h2 p h (List.erase_subset _ _ hmem)
          · replace h : p = c.absolutePath := by simpa using h
            subst h
            intro hmem
            exact ((hnd.mem_erase_iff).mp hmem).1 rfl
        · intro c' hc' hul
          rw [h4]
          exact fun hmem => h3r c' hc' hul (List.erase_subset _ _ hmem)
      · refine ih (stepState fs opts c s) (h4 ▸ hnd) ?_ ?_
        · intro p hpc
          rw [h1] at hpc
          rw [h4]
          rcases List.mem_append.mp hpc with h | h
          · exact h2 p h
          · replace h : p = c.absolutePath := by simpa using h
            subst h
            exact h3 c (List.mem_cons_self c rest) hl
        · intro c' hc' hul; rw [h4]; exact h3r c' hc' hul
      · refine ih (stepState fs opts c s) (h4 ▸ hnd) ?_ ?_
        · intro p hpc; rw [h1] at hpc; rw [h4]; exact h2 p hpc
        · intro c' hc' hul; rw [h4]; exact h3r c' hc' hul

/-! ## Freshly created slot names never collide with existing candidates -/

theorem candOf_some {t : String} {e : DirEntry} {c : Candidate}
    (h : candOf t e = some c) :
    c.absolutePath = pathJoin t e.name ∧ slotSuffixNum e.name = some c.number := by
  by_cases hguard : (e.isDirectory && isSubagentName e.name) = true
  · rw [candOf, if_pos hguard] at h
    cases hs : slotSuffixNum e.name with
    | none => rw [hs] at h; simp at h
    | some n =>
      rw [hs] at h
      simp at h
      subst h
      exact ⟨rfl, rfl⟩
  · rw [candOf, if_neg hguard] at h
    simp at h

theorem candidates_dirs_nodup (t : String) :
    ∀ (entries : List DirEntry), (entries.map (fun e => e.name)).Nodup →
      ((candidates t entries).map (fun c => c.absolutePath)).Nodup := by
  intro entries
  induction entries with
  | nil => intro _; simp [candidates]
  | cons e rest ih =>
    intro hnd
    simp only [List.map_cons, List.nodup_cons] at hnd
    obtain ⟨hname, hndr⟩ := hnd
    simp only [candidates, List.filterMap_cons]
    cases hc : candOf t e with
    | none => exact ih hndr
    | some c =>
      simp only [List.map_cons, List.nodup_cons]
      refine ⟨fun hmem => ?_, ih hndr⟩
      obtain ⟨c', hc', hdir⟩ := List.mem_map.mp hmem
      obtain ⟨e', he', hce'⟩ := List.mem_filterMap.mp hc'
      have hsh := candOf_some hc
      have hsh' := candOf_some hce'
      have : e'.name = e.name :=
        pathJoin_right_injective t (by rw [← hsh'.1, hdir, hsh.1])
      exact hname (this ▸ List.mem_map_of_mem (fun e => e.name) he')

theorem init_le_foldlMax :
    ∀ (l : List Candidate) (init : Int),
      init ≤ l.foldl (fun m c => max m c.number) init := by
  intro l
  induction l with
  | nil => intro init; exact le_refl _
  | cons c rest ih =>
    intro init
    simp only [List.foldl_cons]
    exact le_trans (le_max_left _ _) (ih _)

theorem mem_le_foldlMax :
    ∀ (l : List Candidate) (init : Int) (c : Candidate), c ∈ l →
      c.number ≤ l.foldl (fun m c => max m c.number) init := by
  intro l
  induction l with
  | nil => intro _ c hc; exact absurd hc (List.not_mem_nil c)
  | cons d rest ih =>
    intro init c hc
    simp only [List.foldl_cons]
    rcases List.mem_cons.mp hc with rfl | hc
    · exact le_trans (le_max_right _ _) (init_le_foldlMax _ _)
    · exact ih _ c hc

theorem slotSuffixNum_slotDirName {n : Int} (hn : 0 ≤ n) :
    slotSuffixNum (slotDirName n) = some n := by
  obtain ⟨m, rfl⟩ := Int.eq_ofNat_of_zero_le hn
  exact slotSuffixNum_canonical m

/-- A freshly created slot directory never coincides with an enumerated
candidate: its ordinal strictly exceeds the highest existing one. -/
theorem createNewSlots_not_mem_candidates (root : String) (entries : List DirEntry)
    (d : Bool) (k : Nat) :
    ∀ p ∈ (createNewSlots root d
        ((candidates root entries).foldl (fun m c => max m c.number) 0) k).1,
      p ∉ (candidates root entries).map (fun c => c.absolutePath) := by
  intro p hp hmem
  rw [createNewSlots_fst] at hp
  obtain ⟨i, _, rfl⟩ := List.mem_map.mp hp
  obtain ⟨c, hc, hdir⟩ := List.mem_map.mp hmem
  obtain ⟨e, _, hce⟩ := List.mem_filterMap.mp hc
  obtain ⟨hshape, hnum⟩ := candOf_some hce
  set H := (candidates root entries).foldl (fun m c => max m c.number) 0 with hH
  have hH0 : (0 : Int) ≤ H := init_le_foldlMax _ 0
  have hcH : c.number ≤ H := mem_le_foldlMax _ 0 c hc
  have hname : e.name = slotDirName (H + (i : Int) + 1) :=
    pathJoin_right_injective root (by rw [← hshape, hdir])
  have : some c.number = some (H + (i : Int) + 1) := by
    rw [← hnum, hname, slotSuffixNum_slotDirName (by omega)]
  simp only [Option.some_inj] at this
  omega

/-- Claim C10: for any provision call that returns a result, `created` and
`skippedExisting` are disjoint and their lengths sum to the requested count,
and no slot is both `created` and `skippedLocked`. -/
theorem provision_invariants (fs : FS) (root lockName : String) (count : Int)
    (force dryRun : Bool) (hcount : 1 ≤ count)
    (hnodup : (fs.entries.map (fun e => e.name)).Nodup) :
    ∃ res eff,
      provisionSubagents fs (ProvisionOptions.mk root count lockName force dryRun)
        = .ok (res, eff) ∧
      res.created.length + res.skippedExisting.length = count.toNat ∧
      (∀ p, ¬(p ∈ res.created ∧ p ∈ res.skippedExisting)) ∧
      (∀ p, ¬(p ∈ res.created ∧ p ∈ res.skippedLocked)) := by
  have hne : ¬ count < 1 := by omega
  simp only [provisionSubagents, hne, if_false]
  set entriesEff := if fs.rootExists then fs.entries else [] with hEntries
  have hnodupEff : (entriesEff.map (fun e => e.name)).Nodup := by
    rw [hEntries]; cases h : fs.rootExists <;> simp [h, hnodup]
  set cands := candidates root entriesEff with hCands
  set opts := ProvisionOptions.mk root count lockName force dryRun with hOpts
  set lockedInit := (cands.filter
      (fun c => fs.fileExists (pathJoin c.absolutePath opts.lockName))).map
      (fun c => c.absolutePath) with hLocked
  set sorted := sortByNumber cands with hSorted
  set s0 : LoopState := ⟨[], [], 0, lockedInit, [], []⟩ with hS0
  set st := provisionLoop fs opts count.toNat sorted s0 with hSt
  -- basic facts
  have hdirs_nodup : (cands.map (fun c => c.absolutePath)).Nodup :=
    candidates_dirs_nodup root entriesEff hnodupEff
  have hsortperm : List.Perm (sorted.map (fun c => c.absolutePath))
      (cands.map (fun c => c.absolutePath)) :=
    (List.perm_insertionSort byNumber cands).map _
  have hsort_nodup : (sorted.map (fun c => c.absolutePath)).Nodup :=
    hsortperm.nodup_iff.mpr hdirs_nodup
  have hsort_mem : ∀ c ∈ sorted, c ∈ cands := by
    intro c hc
    exact (List.perm_insertionSort byNumber cands).mem_iff.mp hc
  have hlockedInit_sub : ∀ p ∈ lockedInit, p ∈ cands.map (fun c => c.absolutePath) := by
    intro p hp
    rw [hLocked] at hp
    obtain ⟨c, hc, rfl⟩ := List.mem_map.mp hp
    exact List.mem_map_of_mem _ (List.mem_of_mem_filter hc)
  have hlockedInit_nodup : lockedInit.Nodup := by
    rw [hLocked]
    have hsub : List.Sublist ((cands.filter
          (fun c => fs.fileExists (pathJoin c.absolutePath opts.lockName))).map
          (fun c => c.absolutePath))
        (cands.map (fun c => c.absolutePath)) :=
      (List.filter_sublist _).map _
    exact hdirs_nodup.sublist hsub
  have hunlocked_not_locked : ∀ c' ∈ sorted,
      fs.fileExists (pathJoin c'.absolutePath opts.lockName) = false →
      c'.absolutePath ∉ lockedInit := by
    intro c' hc' hul hmem
    rw [hLocked] at hmem
    obtain ⟨c'', hc'', hdir⟩ := List.mem_map.mp hmem
    have hc''m : c'' ∈ cands := List.mem_of_mem_filter hc''
    have heq : c'' = c' :=
      List.inj_on_of_nodup_map hdirs_nodup hc''m (hsort_mem c' hc') hdir
    have := List.of_mem_filter hc''
    rw [heq, hul] at this
    exact Bool.false_ne_true this
  -- loop invariants
  obtain ⟨hcnt, hmono, hbound⟩ := provisionLoop_counts fs opts count.toNat sorted s0
  obtain ⟨hmc, hms, hml⟩ := provisionLoop_mem fs opts count.toNat sorted s0
  have hdisj := provisionLoop_disjoint fs opts count.toNat sorted s0 hsort_nodup
    (fun p _ => ⟨List.not_mem_nil p, List.not_mem_nil p⟩)
    (fun p ⟨hp, _⟩ => List.not_mem_nil p hp)
  have hlockinv := provisionLoop_lockedSet fs opts count.toNat sorted s0
    hlockedInit_nodup (fun p hp => absurd hp (List.not_mem_nil p))
    hunlocked_not_locked
  -- fresh slots
  have hfreshnom := createNewSlots_not_mem_candidates root entriesEff opts.dryRun
    (count.toNat - st.provisioned)
  refine ⟨_, _, rfl, ?_, ?_, ?_⟩
  · -- length accounting
    simp only [List.length_append]
    have hlen := createNewSlots_length root opts.dryRun (count.toNat - st.provisioned)
      (cands.foldl (fun m c => max m c.number) 0)
    rw [hlen]
    have h2 : s0.provisioned = 0 := rfl
    have h0 : s0.created.length = 0 := rfl
    have h1 : s0.skippedExisting.length = 0 := rfl
    rw [← hSt] at hcnt hbound
    have h3 := hbound (by omega)
    omega
  · -- created ∩ skippedExisting = ∅
    intro p ⟨hpc, hps⟩
    rcases List.mem_append.mp hpc with h | h
    · exact hdisj p ⟨h, hps⟩
    · -- p is a fresh slot dir, but skippedExisting come from candidates
      rcases hms p hps with hnil | hmem
      · exact List.not_mem_nil p hnil
      · have : p ∈ cands.map (fun c => c.absolutePath) := hsortperm.mem_iff.mp hmem
        exact hfreshnom p h this
  · -- created ∩ skippedLocked = ∅
    intro p ⟨hpc, hpl⟩
    have hplock : p ∈ st.lockedSet :=
      (jsSortStrings_perm st.lockedSet).mem_iff.mp hpl
    rcases List.mem_append.mp hpc with h | h
    · exact hlockinv p h hplock
    · have hpin : p ∈ cands.map (fun c => c.absolutePath) :=
        hlockedInit_sub p (hml p hplock)
      exact hfreshnom p h hpin

/-- Witness for C10: mixed pool (one locked, one unlocked), count 3. -/
theorem provision_invariants_witness :
    ∃ res eff,
      provisionSubagents
          ⟨true, [⟨"subagent-1", true⟩, ⟨"subagent-2", true⟩],
            ["/r/subagent-1/subagent.lock"]⟩
          (ProvisionOptions.mk "/r" 3 DEFAULT_LOCK_NAME false false)
        = .ok (res, eff) ∧
      res.created.length + res.skippedExisting.length = (3 : Int).toNat ∧
      (∀ p, ¬(p ∈ res.created ∧ p ∈ res.skippedExisting)) ∧
      (∀ p, ¬(p ∈ res.created ∧ p ∈ res.skippedLocked)) :=
  provision_invariants
    ⟨true, [⟨"subagent-1", true⟩, ⟨"subagent-2", true⟩], ["/r/subagent-1/subagent.lock"]⟩
    "/r" DEFAULT_LOCK_NAME 3 false false (by norm_num) (by decide)

/-! ## `findUnlockedSubagent` / `dispatchAgent` (src/vscode/agentDispatch.ts)

`dispatchAgent` is IO-heavy; its control flow is embedded with the outcome of
each external step (prompt validation, config copy, lock creation, prompt
copy, attachment resolution, editor launch, response reads) supplied by a
`DispatchEnv` oracle.  The claimed slot's lock-marker state at return is
tracked in the result. -/

def findUnlockedSubagent (fs : FS) (subagentRoot : String) : Option String :=
  if !fs.rootExists then none
  else
    ((sortByNumber (candidates subagentRoot fs.entries)).find?
      (fun c => !(fs.fileExists (pathJoin c.absolutePath DEFAULT_LOCK_NAME)))).map
      (fun c => c.absolutePath)

/-- Outcome of one `readFile` attempt inside `waitForResponseOutput`. -/
inductive ReadOutcome where
  | ok
  | busy
  | err
deriving DecidableEq, Repr

/-- The bounded read-retry loop of `waitForResponseOutput` (`maxAttempts = 10`):
success returns the content, `EBUSY` retries after a sleep, any other error —
or exhausting the attempts — gives up.  `f i` is the outcome of the
`(i+1)`-th read. -/
def readRetry (f : Nat → ReadOutcome) : Nat → Nat → Bool
  | 0, _ => false
  | fuel + 1, i =>
    match f i with
    | .ok => true
    | .err => false
    | .busy => readRetry f fuel (i + 1)

/-- `waitForResponseOutput` after the unbounded existence-poll has seen the
response file appear: whether the final read succeeded. -/
def waitForResponseOutput (f : Nat → ReadOutcome) : Bool := readRetry f 10 0

theorem readRetry_all_busy (f : Nat → ReadOutcome) (h : ∀ i, f i = .busy) :
    ∀ (fuel i : Nat), readRetry f fuel i = false := by
  intro fuel
  induction fuel with
  | zero => intro i; rfl
  | succ fuel ih => intro i; simp only [readRetry, h i]; exact ih (i + 1)

structure DispatchEnv where
  promptOk : Bool
  copyConfigOk : Bool
  lockCreateOk : Bool
  promptCopyOk : Bool
  attachmentsOk : Bool
  launchOk : Bool
  readAttempts : Nat → ReadOutcome

structure DispatchOpts where
  hasPrompt : Bool
  dryRun : Bool
  wait : Bool
deriving DecidableEq, Repr

/-- The distinct failure sites of `dispatchAgent`. -/
inductive DispatchFailure where
  | promptInvalid
  | noAvailableSlot
  | prepFailed
  | attachmentNotFound
  | launchFailed
  | responseUnreadable
deriving DecidableEq, Repr

structure DispatchResult where
  exitCode : Nat
  claimed : Option String
  lockPresent : Bool
  failure : Option DispatchFailure
deriving DecidableEq, Repr

/-- `prepareSubagentDirectory`: returns (exit code, lock marker created).
Under `dryRun` nothing happens; `copyAgentConfig` failure aborts before the
lock is created; a prompt-copy failure happens after. -/
def prepareSubagentDirectory (env : DispatchEnv) (hasPrompt dryRun : Bool) :
    Nat × Bool :=
  if dryRun then (0, false)
  else if !env.copyConfigOk then (1, false)
  else if !env.lockCreateOk then (1, false)
  else if hasPrompt && !env.promptCopyOk then (1, true)
  else (0, true)

def dispatchAgent (fs : FS) (subagentRoot : String) (env : DispatchEnv)
    (opts : DispatchOpts) : DispatchResult :=
  if opts.hasPrompt && !env.promptOk then
    ⟨1, none, false, some .promptInvalid⟩
  else
    match findUnlockedSubagent fs subagentRoot with
    | none => ⟨1, none, false, some .noAvailableSlot⟩
    | some subagentDir =>
      let prep := prepareSubagentDirectory env opts.hasPrompt opts.dryRun
      if prep.1 ≠ 0 then ⟨prep.1, some subagentDir, prep.2, some .prepFailed⟩
      else if !env.attachmentsOk then
        ⟨1, some subagentDir, prep.2, some .attachmentNotFound⟩
      else if opts.dryRun then ⟨0, some subagentDir, prep.2, none⟩
      else if !env.launchOk then ⟨1, some subagentDir, prep.2, some .launchFailed⟩
      else if !opts.wait then ⟨0, some subagentDir, prep.2, none⟩
      else if !(waitForResponseOutput env.readAttempts) then
        ⟨1, some subagentDir, prep.2, some .responseUnreadable⟩
      else ⟨0, some subagentDir, false, none⟩

/-- `find?` on an ordinal-sorted list returns an element minimal among all
satisfying the predicate. -/
theorem find?_sorted_min {p : Candidate → Bool} :
    ∀ {l : List Candidate}, List.Sorted byNumber l →
      ∀ {c : Candidate}, l.find? p = some c →
        c ∈ l ∧ p c = true ∧ ∀ c' ∈ l, p c' = true → c.number ≤ c'.number := by
  intro l
  induction l with
  | nil => intro _ c h; simp at h
  | cons d rest ih =>
    intro hs c h
    by_cases hd : p d = true
    · rw [List.find?_cons_of_pos _ hd] at h
      simp only [Option.some_inj] at h
      subst h
      refine ⟨List.mem_cons_self _ _, hd, ?_⟩
      intro c' hc' _
      rcases List.mem_cons.mp hc' with rfl | hc'
      · exact le_refl _
      · exact List.rel_of_sorted_cons hs c' hc'
    · rw [List.find?_cons_of_neg _ hd] at h
      obtain ⟨hmem, hpc, hmin⟩ := ih hs.of_cons h
      refine ⟨List.mem_cons_of_mem _ hmem, hpc, ?_⟩
      intro c' hc' hpc'
      rcases List.mem_cons.mp hc' with rfl | hc'
      · exact absurd hpc' hd
      · exact hmin c' hc' hpc'

/-- The three-slot example pool: slot 1 locked, slots 2 and 3 unlocked. -/
def exampleThreeSlotPool : FS :=
  ⟨true,
    [⟨"subagent-1", true⟩, ⟨"subagent-2", true⟩, ⟨"subagent-3", true⟩],
    ["/r/subagent-1/subagent.lock"]⟩

/-- Claim C4: claiming selects the slot with the lowest ordinal whose lock
marker is absent (e.g. slot 2 when slot 1 is locked and 2, 3 are free), and
when every slot is locked or the pool root is missing, `findUnlockedSubagent`
returns nothing and the dispatch fails with the no-available-slot error
without claiming any slot. -/
theorem dispatch_claims_lowest_unlocked :
    (∀ (fs : FS) (root : String) (p : String),
      findUnlockedSubagent fs root = some p →
      ∃ c ∈ candidates root fs.entries,
        p = c.absolutePath ∧
        fs.fileExists (pathJoin c.absolutePath DEFAULT_LOCK_NAME) = false ∧
        ∀ c' ∈ candidates root fs.entries,
          fs.fileExists (pathJoin c'.absolutePath DEFAULT_LOCK_NAME) = false →
          c.number ≤ c'.number) ∧
    findUnlockedSubagent exampleThreeSlotPool "/r" = some "/r/subagent-2" ∧
    (∀ (fs : FS) (root : String) (env : DispatchEnv) (opts : DispatchOpts),
      (fs.rootExists = false ∨ ∀ c ∈ candidates root fs.entries,
        fs.fileExists (pathJoin c.absolutePath DEFAULT_LOCK_NAME) = true) →
      (opts.hasPrompt && !env.promptOk) = false →
      findUnlockedSubagent fs root = none ∧
      dispatchAgent fs root env opts = ⟨1, none, false, some .noAvailableSlot⟩) := by
  have hnone : ∀ (fs : FS) (root : String),
      (fs.rootExists = false ∨ ∀ c ∈ candidates root fs.entries,
        fs.fileExists (pathJoin c.absolutePath DEFAULT_LOCK_NAME) = true) →
      findUnlockedSubagent fs root = none := by
    intro fs root h
    rcases h with h | h
    · simp [findUnlockedSubagent, h]
    · cases hroot : fs.rootExists
      · simp [findUnlockedSubagent, hroot]
      · simp only [findUnlockedSubagent, hroot, Bool.not_true, Bool.false_eq_true,
          if_false]
        have hfind : (sortByNumber (candidates root fs.entries)).find?
            (fun c => !(fs.fileExists (pathJoin c.absolutePath DEFAULT_LOCK_NAME)))
            = none := by
          rw [List.find?_eq_none]
          intro c hc
          have hcm : c ∈ candidates root fs.entries :=
            (List.perm_insertionSort byNumber _).mem_iff.mp hc
          simp [h c hcm]
        rw [hfind]
        rfl
  refine ⟨?_, by decide, ?_⟩
  · intro fs root p hfind
    cases hroot : fs.rootExists
    · simp [findUnlockedSubagent, hroot] at hfind
    · simp only [findUnlockedSubagent, hroot, Bool.not_true, Bool.false_eq_true,
        if_false] at hfind
      cases hf : (sortByNumber (candidates root fs.entries)).find?
          (fun c => !(fs.fileExists (pathJoin c.absolutePath DEFAULT_LOCK_NAME))) with
      | none => rw [hf] at hfind; simp at hfind
      | some c =>
        rw [hf] at hfind
        simp only [Option.map_some', Option.some.injEq] at hfind
        obtain ⟨hmem, hpc, hmin⟩ := find?_sorted_min
          (List.sorted_insertionSort byNumber (candidates root fs.entries)) hf
        refine ⟨c, (List.perm_insertionSort byNumber _).mem_iff.mp hmem, hfind.symm,
          by simpa using hpc, ?_⟩
        intro c' hc' hul
        exact hmin c' ((List.perm_insertionSort byNumber _).mem_iff.mpr hc')
          (by simp [hul])
  · intro fs root env opts hall hprompt
    have hfn := hnone fs root hall
    refine ⟨hfn, ?_⟩
    simp [dispatchAgent, hprompt, hfn]

/-- Witness for C4 (the all-locked branch at a concrete pool). -/
theorem dispatch_claims_lowest_unlocked_witness :
    findUnlockedSubagent ⟨true, [⟨"subagent-1", true⟩],
        ["/r/subagent-1/subagent.lock"]⟩ "/r" = none ∧
    dispatchAgent ⟨true, [⟨"subagent-1", true⟩], ["/r/subagent-1/subagent.lock"]⟩
        "/r" ⟨true, true, true, true, true, true, fun _ => .busy⟩
        ⟨false, false, true⟩
      = ⟨1, none, false, some .noAvailableSlot⟩ :=
  dispatch_claims_lowest_unlocked.2.2
    ⟨true, [⟨"subagent-1", true⟩], ["/r/subagent-1/subagent.lock"]⟩ "/r"
    ⟨true, true, true, true, true, true, fun _ => .busy⟩ ⟨false, false, true⟩
    (Or.inr (by decide)) (by decide)

/-- Claim C9: the dispatch removes the claimed slot's lock marker only when
synchronous waiting was requested and the response file was successfully
read.  In asynchronous mode it reports success right after launching with
the marker still present; in synchronous mode, if the read retries are
exhausted, it reports failure and leaves the marker in place. -/
theorem dispatch_lock_release (fs : FS) (root : String) (env : DispatchEnv)
    (opts : DispatchOpts) (subagentDir : String)
    (hfind : findUnlockedSubagent fs root = some subagentDir)
    (hprompt : (opts.hasPrompt && !env.promptOk) = false)
    (hcfg : env.copyConfigOk = true) (hlk : env.lockCreateOk = true)
    (hpc : (opts.hasPrompt && !env.promptCopyOk) = false)
    (hatt : env.attachmentsOk = true) (hdry : opts.dryRun = false)
    (hlaunch : env.launchOk = true) :
    (opts.wait = false →
      dispatchAgent fs root env opts = ⟨0, some subagentDir, true, none⟩) ∧
    (opts.wait = true → (∀ i, env.readAttempts i = .busy) →
      dispatchAgent fs root env opts
        = ⟨1, some subagentDir, true, some .responseUnreadable⟩) ∧
    ((dispatchAgent fs root env opts).lockPresent = false →
      opts.wait = true ∧ waitForResponseOutput env.readAttempts = true) := by
  have hprep : prepareSubagentDirectory env opts.hasPrompt opts.dryRun = (0, true) := by
    simp [prepareSubagentDirectory, hdry, hcfg, hlk, hpc]
  have hbase : ∀ (r : DispatchResult),
      (dispatchAgent fs root env opts = r) ↔
      ((if !opts.wait then (⟨0, some subagentDir, true, none⟩ : DispatchResult)
        else if !(waitForResponseOutput env.readAttempts) then
          ⟨1, some subagentDir, true, some .responseUnreadable⟩
        else ⟨0, some subagentDir, false, none⟩) = r) := by
    intro r
    have hprep2 : prepareSubagentDirectory env opts.hasPrompt false = (0, true) :=
      hdry ▸ hprep
    simp [dispatchAgent, hprompt, hfind, hprep2, hatt, hdry, hlaunch]
  refine ⟨?_, ?_, ?_⟩
  · intro hw
    rw [hbase]
    simp [hw]
  · intro hw hbusy
    rw [hbase]
    have : waitForResponseOutput env.readAttempts = false :=
      readRetry_all_busy env.readAttempts hbusy 10 0
    simp [hw, this]
  · intro hlock
    by_cases hw : opts.wait = true
    · by_cases hr : waitForResponseOutput env.readAttempts = true
      · exact ⟨hw, hr⟩
      · exfalso
        replace hr : waitForResponseOutput env.readAttempts = false := by
          simpa using hr
        have := (hbase ⟨1, some subagentDir, true, some .responseUnreadable⟩).mpr
          (by simp [hw, hr])
        rw [this] at hlock
        simp at hlock
    · exfalso
      replace hw : opts.wait = false := by simpa using hw
      have := (hbase ⟨0, some subagentDir, true, none⟩).mpr (by simp [hw])
      rw [this] at hlock
      simp at hlock

/-- Witness for C9: one free slot, all preparation steps succeed, every read
attempt reports `EBUSY` (synchronous branch), plus the asynchronous branch. -/
theorem dispatch_lock_release_witness :
    (dispatchAgent ⟨true, [⟨"subagent-1", true⟩], []⟩ "/r"
        ⟨true, true, true, true, true, true, fun _ => .busy⟩ ⟨false, false, false⟩
      = ⟨0, some "/r/subagent-1", true, none⟩) ∧
    (dispatchAgent ⟨true, [⟨"subagent-1", true⟩], []⟩ "/r"
        ⟨true, true, true, true, true, true, fun _ => .busy⟩ ⟨false, false, true⟩
      = ⟨1, some "/r/subagent-1", true, some .responseUnreadable⟩) :=
  ⟨(dispatch_lock_release ⟨true, [⟨"subagent-1", true⟩], []⟩ "/r"
      ⟨true, true, true, true, true, true, fun _ => .busy⟩ ⟨false, false, false⟩
      "/r/subagent-1" (by decide) (by decide) rfl rfl (by decide) rfl rfl rfl).1 rfl,
   (dispatch_lock_release ⟨true, [⟨"subagent-1", true⟩], []⟩ "/r"
      ⟨true, true, true, true, true, true, fun _ => .busy⟩ ⟨false, false, true⟩
      "/r/subagent-1" (by decide) (by decide) rfl rfl (by decide) rfl rfl rfl).2.1
      rfl (fun _ => rfl)⟩

/-! ## `unlockSubagents` (src/vscode/provision.ts) -/

structure UnlockOptions where
  targetPath : String
  lockName : String := DEFAULT_LOCK_NAME
  subagentName : Option String := none
  unlockAll : Bool := false
  dryRun : Bool := false
deriving Repr

/-- Unlocked paths plus the logged `removeIfExists` calls (empty in dryRun). -/
structure UnlockOutcome where
  unlocked : List String
  removed : List String
deriving DecidableEq, Repr

def unlockSubagents (fs : FS) (opts : UnlockOptions) :
    Except String UnlockOutcome :=
  if (opts.subagentName.isNone && !opts.unlockAll)
      || (opts.subagentName.isSome && opts.unlockAll) then
    .error "must specify either --subagent or --all (but not both)"
  else if !fs.rootExists then
    .error "target root does not exist"
  else if opts.unlockAll then
    let cands := sortByNumber (candidates opts.targetPath fs.entries)
    let locked := cands.filter
      (fun c => fs.fileExists (pathJoin c.absolutePath opts.lockName))
    .ok { unlocked := locked.map (fun c => c.absolutePath)
          removed := if opts.dryRun then []
            else locked.map (fun c => pathJoin c.absolutePath opts.lockName) }
  else
    match opts.subagentName with
    | none => .error "must specify either --subagent or --all (but not both)"
    | some name =>
      let subagentDir := pathJoin opts.targetPath name
      if !(fs.pathExistsUnder opts.targetPath subagentDir) then
        .error "subagent does not exist in target root"
      else
        let lockFile := pathJoin subagentDir opts.lockName
        if fs.fileExists lockFile then
          .ok { unlocked := [subagentDir]
                removed := if opts.dryRun then [] else [lockFile] }
        else
          .ok { unlocked := [], removed := [] }

/-- Claim C8: unlock errors unless exactly one of a slot name or the `all`
flag is given; a named slot whose directory is missing is an error while a
present-but-unlocked slot yields an empty list; `all` returns exactly the
locked slots in ordinal order; and `dryRun` computes the same list while
removing nothing. -/
theorem unlock_contract (fs : FS) (root lockName : String) :
    (∀ (dryRun : Bool), ∃ msg, unlockSubagents fs
        (UnlockOptions.mk root lockName none false dryRun) = .error msg) ∧
    (∀ (name : String) (dryRun : Bool), ∃ msg, unlockSubagents fs
        (UnlockOptions.mk root lockName (some name) true dryRun) = .error msg) ∧
    (∀ (name : String) (dryRun : Bool), fs.rootExists = true →
      fs.pathExistsUnder root (pathJoin root name) = false →
      ∃ msg, unlockSubagents fs
        (UnlockOptions.mk root lockName (some name) false dryRun) = .error msg) ∧
    (∀ (name : String) (dryRun : Bool), fs.rootExists = true →
      fs.pathExistsUnder root (pathJoin root name) = true →
      fs.fileExists (pathJoin (pathJoin root name) lockName) = false →
      unlockSubagents fs (UnlockOptions.mk root lockName (some name) false dryRun)
        = .ok ⟨[], []⟩) ∧
    (∀ (dryRun : Bool), fs.rootExists = true →
      ∃ locked, List.Sorted byNumber locked ∧
        (∀ c, c ∈ locked ↔ (c ∈ candidates root fs.entries ∧
          fs.fileExists (pathJoin c.absolutePath lockName) = true)) ∧
        unlockSubagents fs (UnlockOptions.mk root lockName none true dryRun)
          = .ok ⟨locked.map (fun c => c.absolutePath),
              if dryRun then []
              else locked.map (fun c => pathJoin c.absolutePath lockName)⟩) ∧
    (∀ (o : UnlockOutcome),
      unlockSubagents fs (UnlockOptions.mk root lockName none true true)
        = .ok o →
      o.removed = [] ∧
      ∀ (o' : UnlockOutcome),
        unlockSubagents fs (UnlockOptions.mk root lockName none true false)
          = .ok o' → o.unlocked = o'.unlocked) := by
  refine ⟨?_, ?_, ?_, ?_, ?_, ?_⟩
  · intro dryRun
    refine ⟨"must specify either --subagent or --all (but not both)", ?_⟩
    simp [unlockSubagents]
  · intro name dryRun
    refine ⟨"must specify either --subagent or --all (but not both)", ?_⟩
    simp [unlockSubagents]
  · intro name dryRun hroot hne
    refine ⟨"subagent does not exist in target root", ?_⟩
    simp [unlockSubagents, hroot, hne]
  · intro name dryRun hroot hex hul
    simp [unlockSubagents, hroot, hex, hul]
  · intro dryRun hroot
    refine ⟨(sortByNumber (candidates root fs.entries)).filter
      (fun c => fs.fileExists (pathJoin c.absolutePath lockName)), ?_, ?_, ?_⟩
    · exact (List.sorted_insertionSort byNumber _).filter _
    · intro c
      constructor
      · intro hc
        exact ⟨(List.perm_insertionSort byNumber _).mem_iff.mp
            (List.mem_of_mem_filter hc),
          (List.mem_filter.mp hc).2⟩
      · intro ⟨hmem, hlock⟩
        exact List.mem_filter.mpr
          ⟨(List.perm_insertionSort byNumber _).mem_iff.mpr hmem, hlock⟩
    · simp [unlockSubagents, hroot]
  · intro o ho
    cases hroot : fs.rootExists
    · rw [unlockSubagents] at ho
      simp [hroot] at ho
    · rw [unlockSubagents] at ho
      simp only [Option.isNone_none, Bool.not_true, Bool.and_false, Bool.true_and,
        Option.isSome_none, Bool.false_and, Bool.or_self, Bool.false_or,
        Bool.and_true, hroot, if_false, if_true, Bool.not_false] at ho
      constructor
      · cases ho
        rfl
      · intro o' ho'
        rw [unlockSubagents] at ho'
        simp only [Option.isNone_none, Bool.not_true, Bool.and_false, Bool.true_and,
          Option.isSome_none, Bool.false_and, Bool.or_self, Bool.false_or,
          Bool.and_true, hroot, if_false, if_true, Bool.not_false] at ho'
        cases ho
        cases ho'
        rfl

/-- Witness for C8: slot directory present and never locked — empty list. -/
theorem unlock_contract_witness :
    unlockSubagents ⟨true, [⟨"subagent-1", true⟩], []⟩
        (UnlockOptions.mk "/r" DEFAULT_LOCK_NAME (some "subagent-1") false false)
      = .ok ⟨[], []⟩ :=
  (unlock_contract ⟨true, [⟨"subagent-1", true⟩], []⟩ "/r" DEFAULT_LOCK_NAME).2.2.2.1
    "subagent-1" false rfl (by decide) (by decide)

/-! ## `transformWorkspacePaths` (src/utils/workspace.ts)

The JSON5 parse of the template content is an oracle input
(`none` = parse failure); the function itself is embedded over a JSON value
tree.  JS object semantics are modelled with ordered association lists
(spread keeps positions, assignment to an existing key updates in place).
JS truthiness drives the `!workspace.folders` guard. -/

inductive JVal where
  | null
  | bool (b : Bool)
  | num (n : Int)
  | str (s : String)
  | arr (xs : List JVal)
  | obj (fields : List (String × JVal))

def jsonLookup (fields : List (String × JVal)) (key : String) : Option JVal :=
  (fields.find? (fun f => f.1 = key)).map (fun f => f.2)

/-- JS truthiness (falsy: `null`, `false`, `0`, `""`). -/
def jsTruthy : JVal → Bool
  | .null => false
  | .bool b => b
  | .num n => !(n == 0)
  | .str s => !(s == "")
  | .arr _ => true
  | .obj _ => true

/-- `{...o, key: v}`: update in place if present, else append. -/
def objSet (fields : List (String × JVal)) (key : String) (v : JVal) :
    List (String × JVal) :=
  if fields.any (fun f => f.1 = key) then
    fields.map (fun f => if f.1 = key then (key, v) else f)
  else fields ++ [(key, v)]

/-- `.replace(/\\/g, '/')`. -/
def replaceBackslashes (s : String) : String :=
  String.mk (s.data.map (fun c => if c = '\\' then '/' else c))

/-- `locationPath.search(/[*]/)`: index of the first `*`, `none` for `-1`. -/
def firstGlobIndex (s : String) : Option Nat :=
  s.data.findIdx? (fun c => c = '*')

/-- `String.prototype.lastIndexOf(ch, fromIndex)`: scan downward from
`fromIndex` (inclusive). -/
def lastIndexOfAux (ch : Char) (l : List Char) : Nat → Option Nat
  | 0 => if l.get? 0 = some ch then some 0 else none
  | i + 1 => if l.get? (i + 1) = some ch then some (i + 1) else lastIndexOfAux ch l i

def jsLastIndexOf (ch : Char) (l : List Char) (fromIndex : Nat) : Option Nat :=
  lastIndexOfAux ch l fromIndex

/-- One folder entry: absolute paths kept, relative ones (including `"."`)
resolved against the template directory, other properties preserved.
A non-object entry or non-string `path` is the JS `TypeError` of
`path.isAbsolute(undefined)`. -/
def transformFolder (templateDir : String) (folder : JVal) : Except String JVal :=
  match folder with
  | .obj fields =>
    match jsonLookup fields "path" with
    | some (.str p) =>
      if isAbsolutePath p then .ok (.obj fields)
      else .ok (.obj (objSet fields "path" (.str (pathResolve templateDir p))))
    | _ => .error "TypeError: folder path is not a string"
  | _ => .error "TypeError: folder is not an object"

/-- The per-key transform of the recognised chat-settings maps:

```ts
const firstGlobIndex = locationPath.search(/[*]/);
if (firstGlobIndex === -1) { resolve the entire path }
else {
  const basePathEnd = locationPath.lastIndexOf('/', firstGlobIndex);
  const basePath = basePathEnd !== -1 ? locationPath.substring(0, basePathEnd) : '.';
  const patternPath = locationPath.substring(basePathEnd !== -1 ? basePathEnd : 0);
  (path.resolve(templateDir, basePath) + patternPath).replace(/\\/g, '/')
}
``` -/
def transformLocationKey (templateDir locationPath : String) : String :=
  if isAbsolutePath locationPath then locationPath
  else
    match firstGlobIndex locationPath with
    | none => replaceBackslashes (pathResolve templateDir locationPath)
    | some g =>
      match jsLastIndexOf '/' locationPath.data g with
      | some j =>
        let basePath := String.mk (locationPath.data.take j)
        let patternPath := String.mk (locationPath.data.drop j)
        replaceBackslashes (pathResolve templateDir basePath ++ patternPath)
      | none =>
        replaceBackslashes (pathResolve templateDir "." ++ locationPath)

/-- `workspace.folders.map(...)`, with the JS `TypeError` on a bad entry
propagating out. -/
def mapFolders (templateDir : String) : List JVal → Except String (List JVal)
  | [] => .ok []
  | f :: rest =>
    match transformFolder templateDir f with
    | .error e => .error e
    | .ok v =>
      match mapFolders templateDir rest with
      | .error e => .error e
      | .ok vs => .ok (v :: vs)

/-- Rebuild one settings map, key by key (later collisions overwrite). -/
def transformLocationMap (templateDir : String)
    (fields : List (String × JVal)) : List (String × JVal) :=
  fields.foldl (fun acc f => objSet acc (transformLocationKey templateDir f.1) f.2) []

def chatSettingsKeys : List String :=
  ["chat.promptFilesLocations", "chat.instructionsFilesLocations",
    "chat.modeFilesLocations"]

/-- `{...workspace.settings}` with each recognised location map rebuilt; the
map is transformed only when the value is a (truthy) object. -/
def transformSettings (templateDir : String) (settings : List (String × JVal)) :
    List (String × JVal) :=
  chatSettingsKeys.foldl
    (fun acc key =>
      match jsonLookup settings key with
      | some (.obj m) => objSet acc key (.obj (transformLocationMap templateDir m))
      | _ => acc)
    settings

def transformWorkspacePaths (parsed : Option JVal) (templateDir : String) :
    Except String JVal :=
  match parsed with
  | none => .error "Invalid workspace JSON"
  | some .null => .error "TypeError: cannot read properties of null"
  | some (.obj fields) =>
    match jsonLookup fields "folders" with
    | none => .error "Workspace file must contain a 'folders' array"
    | some foldersVal =>
      if !(jsTruthy foldersVal) then
        .error "Workspace file must contain a 'folders' array"
      else
        match foldersVal with
        | .arr folders =>
          match mapFolders templateDir folders with
          | .error e => .error e
          | .ok transformed =>
            let updatedFolders :=
              JVal.arr (JVal.obj [("path", JVal.str ".")] :: transformed)
            let fields1 := objSet fields "folders" updatedFolders
            let fields2 :=
              match jsonLookup fields "settings" with
              | some (.obj settings) =>
                objSet fields1 "settings"
                  (.obj (transformSettings templateDir settings))
              | _ => fields1
            .ok (.obj fields2)
        | _ => .error "Workspace 'folders' must be an array"
  | some _ => .error "Workspace file must contain a 'folders' array"

/-- Claim C5: materialising the template with folders
`["./lib", "/abs/x", "."]` and `templateDir = "/t"` yields the folder list
`[".", "/t/lib", "/abs/x", "/t"]` in exactly that order: absolute entries
unchanged, relative entries (including the bare `"."`) resolved against the
template directory, and a literal `{ path: "." }` entry prepended. -/
theorem transform_folders_example :
    transformWorkspacePaths (some (JVal.obj [("folders", JVal.arr
        [JVal.obj [("path", JVal.str "./lib")],
         JVal.obj [("path", JVal.str "/abs/x")],
         JVal.obj [("path", JVal.str ".")]])])) "/t"
      = .ok (JVal.obj [("folders", JVal.arr
        [JVal.obj [("path", JVal.str ".")],
         JVal.obj [("path", JVal.str "/t/lib")],
         JVal.obj [("path", JVal.str "/abs/x")],
         JVal.obj [("path", JVal.str "/t")]])]) := rfl

/-! ## Claim C6: the glob-key split point

The claim says a relative key with a wildcard is split *at its first wildcard
character*; the code splits at the *last path separator preceding* the first
wildcard (`lastIndexOf('/', firstGlobIndex)`), falling back to resolving
`"."` and appending the entire key when no separator precedes the wildcard. -/

/-- The per-key rule exactly as the claim words it (for comparison with the
code): resolve the portion before the first wildcard against the template
directory and re-concatenate the original suffix from the wildcard on. -/
def claimTransformLocationKey (templateDir locationPath : String) : String :=
  if isAbsolutePath locationPath then locationPath
  else
    match firstGlobIndex locationPath with
    | none => replaceBackslashes (pathResolve templateDir locationPath)
    | some g =>
      replaceBackslashes
        (pathResolve templateDir (String.mk (locationPath.data.take g))
          ++ String.mk (locationPath.data.drop g))

/-- Counterexample to Claim C6 as stated: on `foo*.md` (wildcard preceded by
no separator) the code resolves `"."` and appends the whole key, producing
`/tfoo*.md` with no separator, not `/t/foo*.md`; on `src/**/a.md` the code
keeps the separator inside the suffix, producing `/t/src/**/a.md` where the
claimed split-at-wildcard rule gives `/t/src**/a.md`.  The map rebuilt by
`transformLocationMap` carries the code's key, not the claimed one. -/
theorem transform_glob_key_counterexample :
    claimTransformLocationKey "/t" "foo*.md" = "/t/foo*.md" ∧
    transformLocationKey "/t" "foo*.md" = "/tfoo*.md" ∧
    claimTransformLocationKey "/t" "src/**/a.md" = "/t/src**/a.md" ∧
    transformLocationKey "/t" "src/**/a.md" = "/t/src/**/a.md" ∧
    (transformLocationMap "/t" [("foo*.md", JVal.bool true)]).map Prod.fst
      = ["/tfoo*.md"] ∧
    "/t/foo*.md" ∉
      ((transformLocationMap "/t" [("foo*.md", JVal.bool true)]).map Prod.fst) :=
  ⟨rfl, rfl, rfl, rfl, rfl, by decide⟩

/-- The amended split rule, worded as the correction of C6: split the key at
the last path separator preceding its first wildcard, resolve the portion
before that separator against the template directory and append the
remainder beginning with the separator; when no separator precedes the
wildcard, append the entire key to the resolution of `"."`. -/
def amendedTransformLocationKey (templateDir locationPath : String) : String :=
  if isAbsolutePath locationPath then locationPath
  else
    match firstGlobIndex locationPath with
    | none => replaceBackslashes (pathResolve templateDir locationPath)
    | some g =>
      match ((List.range (g + 1)).filter
          (fun k => locationPath.data.get? k = some '/')).max? with
      | some j =>
        replaceBackslashes
          (pathResolve templateDir (String.mk (locationPath.data.take j))
            ++ String.mk (locationPath.data.drop j))
      | none => replaceBackslashes (pathResolve templateDir "." ++ locationPath)

theorem foldl_max_le {a : Nat} :
    ∀ (xs : List Nat) (x : Nat), x ≤ a → (∀ y ∈ xs, y ≤ a) →
      xs.foldl max x ≤ a := by
  intro xs
  induction xs with
  | nil => intro x hx _; exact hx
  | cons y ys ih =>
    intro x hx hall
    simp only [List.foldl_cons]
    exact ih _ (max_le hx (hall y (List.mem_cons_self y ys)))
      (fun z hz => hall z (List.mem_cons_of_mem _ hz))

theorem max?_append_singleton (xs : List Nat) (a : Nat) (h : ∀ x ∈ xs, x ≤ a) :
    (xs ++ [a]).max? = some a := by
  cases xs with
  | nil => rfl
  | cons x xs' =>
    show some ((xs' ++ [a]).foldl max x) = some a
    rw [List.foldl_append]
    simp only [List.foldl_cons, List.foldl_nil]
    congr 1
    have hb : xs'.foldl max x ≤ a :=
      foldl_max_le _ x (h x (List.mem_cons_self x xs'))
        (fun z hz => h z (List.mem_cons_of_mem _ hz))
    omega

/-- `String.prototype.lastIndexOf(ch, i)` is the largest index `≤ i`
holding `ch`. -/
theorem jsLastIndexOf_eq_filterMax (ch : Char) (l : List Char) :
    ∀ i, jsLastIndexOf ch l i
      = ((List.range (i + 1)).filter (fun k => l.get? k = some ch)).max? := by
  intro i
  induction i with
  | zero =>
    show (if l.get? 0 = some ch then some 0 else none) = _
    by_cases h : l.get? 0 = some ch
    · rw [if_pos h]
      have h2 : List.filter (fun k => decide (l.get? k = some ch)) (List.range 1)
          = [0] := by
        rw [show List.range 1 = [0] from rfl, List.filter_cons, List.filter_nil,
          decide_eq_true h]
        rfl
      rw [h2]
      rfl
    · rw [if_neg h]
      have h2 : List.filter (fun k => decide (l.get? k = some ch)) (List.range 1)
          = [] := by
        rw [show List.range 1 = [0] from rfl, List.filter_cons, List.filter_nil,
          decide_eq_false h]
        rfl
      rw [h2]
      rfl
  | succ i ih =>
    show (if l.get? (i + 1) = some ch then some (i + 1) else lastIndexOfAux ch l i)
        = _
    rw [List.range_succ, List.filter_append]
    by_cases h : l.get? (i + 1) = some ch
    · have hsingle : List.filter (fun k => decide (l.get? k = some ch)) [i + 1]
          = [i + 1] := by
        rw [List.filter_cons, List.filter_nil, decide_eq_true h]
        rfl
      rw [if_pos h, hsingle, max?_append_singleton]
      intro x hx
      have := List.mem_range.mp (List.mem_of_mem_filter hx)
      omega
    · have hsingle : List.filter (fun k => decide (l.get? k = some ch)) [i + 1]
          = [] := by
        rw [List.filter_cons, List.filter_nil, decide_eq_false h]
        rfl
      rw [if_neg h, hsingle, List.append_nil]
      exact ih

theorem transformLocationKey_amended_key (templateDir key : String) :
    transformLocationKey templateDir key
      = amendedTransformLocationKey templateDir key := by
  unfold transformLocationKey amendedTransformLocationKey
  by_cases habs : isAbsolutePath key = true
  · simp [habs]
  · replace habs : isAbsolutePath key = false := by simpa using habs
    simp only [habs, Bool.false_eq_true, if_false]
    cases hg : firstGlobIndex key with
    | none => rfl
    | some g =>
      exact congrArg (fun o => match o with
        | some j => replaceBackslashes
            (pathResolve templateDir (String.mk (key.data.take j))
              ++ String.mk (key.data.drop j))
        | none => replaceBackslashes (pathResolve templateDir "." ++ key))
        (jsLastIndexOf_eq_filterMax '/' key.data g)

/-- Claim C6 (amended): every key of a recognised chat-settings map is left
unchanged when absolute, resolved in its entirety when relative without a
wildcard, and otherwise split at the last path separator preceding its first
wildcard — the part before resolved against the template directory, the
remainder from that separator (the whole key, appended to the resolution of
`"."`, when no separator precedes the wildcard) re-concatenated — with
backslashes normalised to forward slashes. -/
theorem transformLocationMap_amended (templateDir : String)
    (fields : List (String × JVal)) :
    transformLocationMap templateDir fields
      = fields.foldl (fun acc f =>
          objSet acc (amendedTransformLocationKey templateDir f.1) f.2) [] := by
  unfold transformLocationMap
  simp only [transformLocationKey_amended_key]

/-! ## Claim C7: the three template errors

The claim's two "exactly when" clauses conflict on a `folders` entry that is
present but falsy: the JS guard `!workspace.folders` fires first, so
`folders: false` (or `0`, `""`, `null`) reports the missing-folders error
even though a folders entry is present and is not a list. -/

/-- Counterexample to Claim C7 as stated: with `folders: false` a folders
entry is present but is not a list, yet the code fails with the
missing-folders error, not the folders-not-an-array error. -/
theorem transform_error_counterexample :
    transformWorkspacePaths (some (JVal.obj [("folders", JVal.bool false)])) "/t"
      = .error "Workspace file must contain a 'folders' array" ∧
    transformWorkspacePaths (some (JVal.obj [("folders", JVal.bool false)])) "/t"
      ≠ .error "Workspace 'folders' must be an array" := by
  refine ⟨rfl, fun h => ?_⟩
  rw [show transformWorkspacePaths (some (JVal.obj [("folders", JVal.bool false)]))
      "/t" = .error "Workspace file must contain a 'folders' array" from rfl] at h
  injection h with h3
  exact absurd h3 (by decide)

/-- The `!workspace.folders` guard of the source, as a predicate on the parsed
document: the folders entry is absent or falsy (on a non-object, non-null
document the property read gives `undefined`, also falsy). -/
def foldersMissingOrFalsy : JVal → Bool
  | .null => false
  | .obj fields =>
    match jsonLookup fields "folders" with
    | none => true
    | some v => !(jsTruthy v)
  | _ => true

theorem transformFolder_error_msg {tdir : String} {f : JVal} {e : String}
    (h : transformFolder tdir f = .error e) :
    e = "TypeError: folder path is not a string" ∨
    e = "TypeError: folder is not an object" := by
  cases f with
  | obj fields =>
    simp only [transformFolder] at h
    cases hl : jsonLookup fields "path" with
    | none =>
      rw [hl] at h
      simp only [Except.error.injEq] at h
      exact Or.inl h.symm
    | some v =>
      rw [hl] at h
      cases v with
      | str p =>
        replace h : (if isAbsolutePath p = true then
              Except.ok (JVal.obj fields)
            else Except.ok (JVal.obj (objSet fields "path"
              (JVal.str (pathResolve tdir p))))) = Except.error e := h
        by_cases habs : isAbsolutePath p = true
        · rw [if_pos habs] at h; exact absurd h (by simp)
        · rw [if_neg habs] at h; exact absurd h (by simp)
      | null => simp only [Except.error.injEq] at h; exact Or.inl h.symm
      | bool b => simp only [Except.error.injEq] at h; exact Or.inl h.symm
      | num n => simp only [Except.error.injEq] at h; exact Or.inl h.symm
      | arr xs => simp only [Except.error.injEq] at h; exact Or.inl h.symm
      | obj o => simp only [Except.error.injEq] at h; exact Or.inl h.symm
  | null =>
    simp only [transformFolder, Except.error.injEq] at h
    exact Or.inr h.symm
  | bool b =>
    simp only [transformFolder, Except.error.injEq] at h
    exact Or.inr h.symm
  | num n =>
    simp only [transformFolder, Except.error.injEq] at h
    exact Or.inr h.symm
  | str st =>
    simp only [transformFolder, Except.error.injEq] at h
    exact Or.inr h.symm
  | arr xs =>
    simp only [transformFolder, Except.error.injEq] at h
    exact Or.inr h.symm

theorem mapFolders_error_msg {tdir : String} :
    ∀ {l : List JVal} {e : String}, mapFolders tdir l = .error e →
      e = "TypeError: folder path is not a string" ∨
      e = "TypeError: folder is not an object" := by
  intro l
  induction l with
  | nil => intro e h; exact absurd h (by simp [mapFolders])
  | cons f rest ih =>
    intro e h
    simp only [mapFolders] at h
    cases hf : transformFolder tdir f with
    | error e' =>
      rw [hf] at h
      simp only [Except.error.injEq] at h
      exact h ▸ transformFolder_error_msg hf
    | ok v =>
      rw [hf] at h
      cases hr : mapFolders tdir rest with
      | error e' =>
        rw [hr] at h
        simp only [Except.error.injEq] at h
        exact h ▸ ih hr
      | ok vs =>
        rw [hr] at h
        exact absurd h (by simp)

/-- Claim C7 (amended): parse failure yields exactly the invalid-template
error; the missing-folders error occurs exactly when the folders entry is
absent *or falsy* (the JS `!workspace.folders` truthiness guard); the
folders-not-an-array error occurs exactly when a folders entry is present and
truthy but not a list; and on any error no output document is produced. -/
theorem transform_error_conditions (parsed : Option JVal) (templateDir : String) :
    (transformWorkspacePaths parsed templateDir = .error "Invalid workspace JSON"
      ↔ parsed = none) ∧
    (transformWorkspacePaths parsed templateDir
        = .error "Workspace file must contain a 'folders' array"
      ↔ ∃ w, parsed = some w ∧ foldersMissingOrFalsy w = true) ∧
    (transformWorkspacePaths parsed templateDir
        = .error "Workspace 'folders' must be an array"
      ↔ ∃ fields v, parsed = some (JVal.obj fields) ∧
          jsonLookup fields "folders" = some v ∧ jsTruthy v = true ∧
          ∀ xs, v ≠ JVal.arr xs) ∧
    (∀ msg out, transformWorkspacePaths parsed templateDir = .error msg →
      transformWorkspacePaths parsed templateDir ≠ .ok out) := by
  have herrne : ∀ {a b : String}, a ≠ b →
      (Except.error a : Except String JVal) ≠ .error b :=
    fun hne h => hne (by injection h)
  have herr4 : ∀ (m : String) (msg : String) (out : JVal),
      (Except.error m : Except String JVal) = .error msg →
      (Except.error m : Except String JVal) ≠ .ok out :=
    fun _ _ _ _ ho => Except.noConfusion ho
  have hok4 : ∀ (d : JVal) (msg : String) (out : JVal),
      (Except.ok d : Except String JVal) = .error msg →
      (Except.ok d : Except String JVal) ≠ .ok out :=
    fun _ _ _ he _ => Except.noConfusion he
  have hq1F : ∀ (w : JVal), ¬ (some w = (none : Option JVal)) :=
    fun w h => Option.noConfusion h
  have hq3nonobj : ∀ (w : JVal), (∀ fields, w ≠ JVal.obj fields) →
      ¬ ∃ fields v, some w = some (JVal.obj fields) ∧
        jsonLookup fields "folders" = some v ∧ jsTruthy v = true ∧
        ∀ xs, v ≠ JVal.arr xs := by
    rintro w hne ⟨fields, v, hw, _⟩
    exact hne fields (Option.some.inj hw)
  cases parsed with
  | none =>
    refine ⟨iff_of_true rfl rfl, iff_of_false (herrne (by decide)) ?_,
      iff_of_false (herrne (by decide)) ?_, herr4 _⟩
    · rintro ⟨w, hw, _⟩; exact Option.noConfusion hw
    · rintro ⟨fields, v, hw, _⟩; exact Option.noConfusion hw
  | some w =>
    cases w with
    | null =>
      refine ⟨iff_of_false (herrne (by decide)) (hq1F _),
        iff_of_false (herrne (by decide)) ?_,
        iff_of_false (herrne (by decide))
          (hq3nonobj _ (fun fields h => JVal.noConfusion h)), herr4 _⟩
      rintro ⟨w', hw, hp⟩
      rw [← Option.some.inj hw] at hp
      exact Bool.false_ne_true hp
    | bool b =>
      refine ⟨iff_of_false (herrne (by decide)) (hq1F _),
        iff_of_true rfl ⟨JVal.bool b, rfl, rfl⟩,
        iff_of_false (herrne (by decide))
          (hq3nonobj _ (fun fields h => JVal.noConfusion h)), herr4 _⟩
    | num n =>
      refine ⟨iff_of_false (herrne (by decide)) (hq1F _),
        iff_of_true rfl ⟨JVal.num n, rfl, rfl⟩,
        iff_of_false (herrne (by decide))
          (hq3nonobj _ (fun fields h => JVal.noConfusion h)), herr4 _⟩
    | str st =>
      refine ⟨iff_of_false (herrne (by decide)) (hq1F _),
        iff_of_true rfl ⟨JVal.str st, rfl, rfl⟩,
        iff_of_false (herrne (by decide))
          (hq3nonobj _ (fun fields h => JVal.noConfusion h)), herr4 _⟩
    | arr xs =>
      refine ⟨iff_of_false (herrne (by decide)) (hq1F _),
        iff_of_true rfl ⟨JVal.arr xs, rfl, rfl⟩,
        iff_of_false (herrne (by decide))
          (hq3nonobj _ (fun fields h => JVal.noConfusion h)), herr4 _⟩
    | obj fields =>
      have hq3ne : ∀ (v : JVal), jsonLookup fields "folders" = some v →
          (jsTruthy v = false ∨ ∃ ys, v = JVal.arr ys) →
          ¬ ∃ fields' v', some (JVal.obj fields) = some (JVal.obj fields') ∧
            jsonLookup fields' "folders" = some v' ∧ jsTruthy v' = true ∧
            ∀ xs, v' ≠ JVal.arr xs := by
        rintro v hl hva ⟨fields', v', hw, hl', ht', hne⟩
        have hf : fields' = fields := by
          have h9 := Option.some.inj hw
          injection h9 with h10
          exact h10.symm
        subst hf
        rw [hl] at hl'
        have hv : v' = v := (Option.some.inj hl').symm
        subst hv
        rcases hva with hva | ⟨ys, rfl⟩
        · rw [hva] at ht'; exact Bool.false_ne_true ht'
        · exact hne ys rfl
      have hq2obj : ∀ (b : Bool),
          (match jsonLookup fields "folders" with
            | none => true
            | some v => !(jsTruthy v)) = b →
          ((∃ w, some (JVal.obj fields) = some w ∧ foldersMissingOrFalsy w = true)
            ↔ b = true) := by
        intro b hb
        constructor
        · rintro ⟨w, hw, hp⟩
          rw [← Option.some.inj hw] at hp
          rw [← hb]
          exact hp
        · intro hbt
          exact ⟨JVal.obj fields, rfl, by rw [show foldersMissingOrFalsy
            (JVal.obj fields) = (match jsonLookup fields "folders" with
              | none => true | some v => !(jsTruthy v)) from rfl, hb, hbt]⟩
      cases hl : jsonLookup fields "folders" with
      | none =>
        have hv : transformWorkspacePaths (some (JVal.obj fields)) templateDir
            = .error "Workspace file must contain a 'folders' array" := by
          simp [transformWorkspacePaths, hl]
        rw [hv]
        refine ⟨iff_of_false (herrne (by decide)) (hq1F _),
          iff_of_true rfl ((hq2obj true (by rw [hl])).mpr rfl), ?_, herr4 _⟩
        refine iff_of_false (herrne (by decide)) ?_
        rintro ⟨fields', v', hw, hl', _⟩
        have hf : fields' = fields := by
          have h9 := Option.some.inj hw
          injection h9 with h10
          exact h10.symm
        subst hf
        rw [hl] at hl'
        exact Option.noConfusion hl'
      | some v =>
        by_cases ht : jsTruthy v = true
        · cases v with
          | arr ys =>
            cases hm : mapFolders templateDir ys with
            | error e =>
              have hv : transformWorkspacePaths (some (JVal.obj fields)) templateDir
                  = .error e := by
                simp [transformWorkspacePaths, hl, hm, jsTruthy]
              rw [hv]
              have hne3 : ∀ (t : String), e ≠ t →
                  (Except.error e : Except String JVal) ≠ .error t :=
                fun t hnet => herrne hnet
              obtain he | he := mapFolders_error_msg hm <;> subst he
              · exact ⟨iff_of_false (herrne (by decide)) (hq1F _),
                  iff_of_false (herrne (by decide))
                    (fun hex => Bool.false_ne_true ((hq2obj false (by rw [hl]; simp [jsTruthy])).mp hex)),
                  iff_of_false (herrne (by decide))
                    (hq3ne _ hl (Or.inr ⟨ys, rfl⟩)), herr4 _⟩
              · exact ⟨iff_of_false (herrne (by decide)) (hq1F _),
                  iff_of_false (herrne (by decide))
                    (fun hex => Bool.false_ne_true ((hq2obj false (by rw [hl]; simp [jsTruthy])).mp hex)),
                  iff_of_false (herrne (by decide))
                    (hq3ne _ hl (Or.inr ⟨ys, rfl⟩)), herr4 _⟩
            | ok vs =>
              have hv : transformWorkspacePaths (some (JVal.obj fields)) templateDir
                  = .ok (JVal.obj
                    (match jsonLookup fields "settings" with
                      | some (.obj settings) =>
                        objSet (objSet fields "folders"
                          (JVal.arr (JVal.obj [("path", JVal.str ".")] :: vs)))
                          "settings"
                          (.obj (transformSettings templateDir settings))
                      | _ => objSet fields "folders"
                          (JVal.arr (JVal.obj [("path", JVal.str ".")] :: vs)))) := by
                simp [transformWorkspacePaths, hl, hm, jsTruthy]
              rw [hv]
              refine ⟨iff_of_false (fun h => Except.noConfusion h) (hq1F _),
                iff_of_false (fun h => Except.noConfusion h)
                  (fun hex => Bool.false_ne_true ((hq2obj false (by rw [hl]; simp [jsTruthy])).mp hex)),
                iff_of_false (fun h => Except.noConfusion h)
                  (hq3ne _ hl (Or.inr ⟨ys, rfl⟩)), hok4 _⟩
          | null => rw [show jsTruthy JVal.null = false from rfl] at ht; simp at ht
          | bool b =>
            simp only [jsTruthy] at ht
            have hv : transformWorkspacePaths (some (JVal.obj fields)) templateDir
                = .error "Workspace 'folders' must be an array" := by
              simp [transformWorkspacePaths, hl, ht, jsTruthy]
            rw [hv]
            exact ⟨iff_of_false (herrne (by decide)) (hq1F _),
              iff_of_false (herrne (by decide))
                (fun hex => Bool.false_ne_true ((hq2obj false (by rw [hl]; simp [ht, jsTruthy])).mp hex)),
              iff_of_true rfl ⟨fields, JVal.bool b, rfl, hl, ht,
                fun xs h => JVal.noConfusion h⟩, herr4 _⟩
          | num n =>
            simp only [jsTruthy] at ht
            have hv : transformWorkspacePaths (some (JVal.obj fields)) templateDir
                = .error "Workspace 'folders' must be an array" := by
              simp [transformWorkspacePaths, hl, ht, jsTruthy]
            rw [hv]
            exact ⟨iff_of_false (herrne (by decide)) (hq1F _),
              iff_of_false (herrne (by decide))
                (fun hex => Bool.false_ne_true ((hq2obj false (by rw [hl]; simp [ht, jsTruthy])).mp hex)),
              iff_of_true rfl ⟨fields, JVal.num n, rfl, hl, ht,
                fun xs h => JVal.noConfusion h⟩, herr4 _⟩
          | str st =>
            simp only [jsTruthy] at ht
            have hv : transformWorkspacePaths (some (JVal.obj fields)) templateDir
                = .error "Workspace 'folders' must be an array" := by
              simp [transformWorkspacePaths, hl, ht, jsTruthy]
            rw [hv]
            exact ⟨iff_of_false (herrne (by decide)) (hq1F _),
              iff_of_false (herrne (by decide))
                (fun hex => Bool.false_ne_true ((hq2obj false (by rw [hl]; simp [ht, jsTruthy])).mp hex)),
              iff_of_true rfl ⟨fields, JVal.str st, rfl, hl, ht,
                fun xs h => JVal.noConfusion h⟩, herr4 _⟩
          | obj o =>
            have hv : transformWorkspacePaths (some (JVal.obj fields)) templateDir
                = .error "Workspace 'folders' must be an array" := by
              simp [transformWorkspacePaths, hl, jsTruthy]
            rw [hv]
            exact ⟨iff_of_false (herrne (by decide)) (hq1F _),
              iff_of_false (herrne (by decide))
                (fun hex => Bool.false_ne_true ((hq2obj false (by rw [hl]; simp [jsTruthy])).mp hex)),
              iff_of_true rfl ⟨fields, JVal.obj o, rfl, hl, rfl,
                fun xs h => JVal.noConfusion h⟩, herr4 _⟩
        · replace ht : jsTruthy v = false := by simpa using ht
          have hv : transformWorkspacePaths (some (JVal.obj fields)) templateDir
              = .error "Workspace file must contain a 'folders' array" := by
            simp [transformWorkspacePaths, hl, ht]
          rw [hv]
          refine ⟨iff_of_false (herrne (by decide)) (hq1F _),
            iff_of_true rfl ((hq2obj true (by rw [hl]; simp [ht])).mpr rfl),
            iff_of_false (herrne (by decide)) (hq3ne _ hl (Or.inl ht)), herr4 _⟩

/-- Witness for C7 (amended): a present-but-falsy folders entry yields the
missing-folders error. -/
theorem transform_error_conditions_witness :
    transformWorkspacePaths (some (JVal.obj [("folders", JVal.num 0)])) "/t"
      = .error "Workspace file must contain a 'folders' array" :=
  (transform_error_conditions (some (JVal.obj [("folders", JVal.num 0)])) "/t").2.1.mpr
    ⟨JVal.obj [("folders", JVal.num 0)], rfl, rfl⟩

end Subagent
